import Mathlib

/-!
# StreamLens metrics processor

A shallow embedding of `internal/models/events.go` and
`internal/processor/processor.go`, followed by the properties established
about them.

Modelling conventions.

* `time.Time` is an integer count of nanoseconds since the zero time
  (January 1, year 1, 00:00:00 UTC); `time.Duration` is an integer count of
  nanoseconds.  The monotonic clock reading and the location are not part of
  the model: none of the embedded functions looks at them.
* Go `int` fields are `Int`.  The loops that add up samples wrap at 64 bits
  (`wrapInt64`); counters that grow by one per folded pair are left unbounded.
* Go maps keyed by `string` are finite partial functions, `String → Option V`.
  A `range` loop over a map receives the order in which the runtime visits the
  keys as an explicit list.
* A `float64` is the rational it denotes, and a `float64` operation is the exact
  operation followed by IEEE-754 rounding to nearest, ties to even
  (`roundToFloat64`; normal range, no fused multiply-add).  `calculatePercentile`
  and `computeMetricsFloat64` are modelled this way.  `computeMetrics` is the
  same method with the rounding left out, the float expressions read in exact
  arithmetic: statements about the cost formula and the flush are made about it.
* Records arrive at the handlers already decoded: a record that fails
  `json.Unmarshal` returns before any state is touched.
* Every handler runs as one atomic step.  The window map is only read and
  written while `windowMu` is held, so its contents evolve by exactly the
  steps modelled here.
-/

namespace StreamLens

/-! ## `time` -/

/-- An instant: nanoseconds since January 1, year 1, 00:00:00 UTC. -/
abbrev Time := Int

/-- An elapsed time in nanoseconds. -/
abbrev Duration := Int

/-- The constant `time.Second`. -/
def Second : Duration := 1000000000

/-- The constant `time.Minute`. -/
def Minute : Duration := 60 * Second

/-- Seconds from the zero time to the Unix epoch (`unixToInternal` in package `time`). -/
def unixToInternal : Int := 62135596800

/-- The method `t.IsZero()`. -/
def Time.IsZero (t : Time) : Bool := decide (t = 0)

/-- The method `t.Before(u)`. -/
def Time.Before (t u : Time) : Bool := decide (t < u)

/-- The method `t.Add(d)`. -/
def Time.Add (t : Time) (d : Duration) : Time := t + d

/-- The method `t.Truncate(d)`: round `t` down to a multiple of `d` since the zero time;
`t` itself when `d ≤ 0`. -/
def Time.Truncate (t : Time) (d : Duration) : Time :=
  if d ≤ 0 then t else t - t % d

/-- The method `t.Unix()`: whole seconds since January 1, 1970 UTC. -/
def Time.Unix (t : Time) : Int := t / Second - unixToInternal

/-- The instant with the given Unix time in seconds (`time.Unix(sec, 0)`). -/
def Time.ofUnix (sec : Int) : Time := (sec + unixToInternal) * Second

/-! ## `internal/models` -/

/-- The sentinel errors of `internal/models/errors.go`. -/
inductive ModelError where
  | ErrMissingRequestID
  | ErrMissingTenantID
  | ErrMissingRoute
  | ErrMissingModel
  | ErrMissingTimestamp
deriving DecidableEq, Repr

/-- The struct `models.LLMRequest`. -/
structure LLMRequest where
  RequestID : String
  TenantID : String
  Route : String
  Model : String
  Timestamp : Time
  PromptTokens : Int
  UserIDHash : Option String
  Metadata : List (String × String)
deriving DecidableEq, Repr

/-- The struct `models.LLMResponse`. -/
structure LLMResponse where
  RequestID : String
  Timestamp : Time
  LatencyMs : Int
  CompletionTokens : Int
  FinishReason : String
  Error : Option String
deriving DecidableEq, Repr

/-- The struct `models.LLMMetrics`. -/
structure LLMMetrics where
  TenantID : String
  Route : String
  Model : String
  WindowStart : Time
  WindowEnd : Time
  Requests : Int
  Errors : Int
  AvgLatencyMs : ℚ
  P95LatencyMs : ℚ
  AvgPromptTokens : ℚ
  AvgCompletionTokens : ℚ
  EstimatedCostUSD : ℚ
deriving DecidableEq

/-- The method `LLMRequest.Validate`; `none` is the `nil` error. -/
def LLMRequest.Validate (r : LLMRequest) : Option ModelError :=
  if r.RequestID = "" then some ModelError.ErrMissingRequestID
  else if r.TenantID = "" then some ModelError.ErrMissingTenantID
  else if r.Route = "" then some ModelError.ErrMissingRoute
  else if r.Model = "" then some ModelError.ErrMissingModel
  else if Time.IsZero r.Timestamp then some ModelError.ErrMissingTimestamp
  else none

/-- The method `LLMResponse.Validate`; `none` is the `nil` error. -/
def LLMResponse.Validate (r : LLMResponse) : Option ModelError :=
  if r.RequestID = "" then some ModelError.ErrMissingRequestID
  else if Time.IsZero r.Timestamp then some ModelError.ErrMissingTimestamp
  else none

/-! ## Go maps -/

/-- A Go `map[string]V`. -/
def GoMap (V : Type) : Type := String → Option V

namespace GoMap

variable {V : Type}

/-- The result of `make(map[string]V)`. -/
def empty : GoMap V := fun _ => none

/-- The lookup `v, ok := m[k]`. -/
def get (m : GoMap V) (k : String) : Option V := m k

/-- The assignment `m[k] = v`. -/
def set (m : GoMap V) (k : String) (v : V) : GoMap V :=
  fun j => if j = k then some v else m j

/-- The call `delete(m, k)`. -/
def delete (m : GoMap V) (k : String) : GoMap V :=
  fun j => if j = k then none else m j

end GoMap

/-! ## `internal/processor` -/

/-- The constant `WindowDuration`. -/
def WindowDuration : Duration := 1 * Minute

/-- The constant `StateRetentionDuration`. -/
def StateRetentionDuration : Duration := 5 * Minute

/-- The struct `WindowAggregate`. -/
structure WindowAggregate where
  TenantID : String
  Route : String
  Model : String
  WindowStart : Time
  WindowEnd : Time
  Requests : Int
  Errors : Int
  Latencies : List Int
  PromptTokens : List Int
  CompTokens : List Int
deriving DecidableEq, Repr

/-- The in-memory state of `MetricsProcessor`: the two halves of the pair store and the
window map.  The consumer, the producer and the store are external. -/
structure MetricsProcessor where
  requestState : GoMap LLMRequest
  responseState : GoMap LLMResponse
  windowAggregates : GoMap WindowAggregate

/-- The state built by `NewMetricsProcessor`. -/
def NewMetricsProcessor : MetricsProcessor :=
  { requestState := GoMap.empty
    responseState := GoMap.empty
    windowAggregates := GoMap.empty }

/-- The verb `%d` applied to a non-negative integer. -/
def formatNat (n : Nat) : String :=
  if n = 0 then "0" else String.mk ((Nat.digits 10 n).reverse.map Nat.digitChar)

/-- The verb `%d` of `fmt.Sprintf`. -/
def formatInt : Int → String
  | Int.ofNat n => formatNat n
  | Int.negSucc n => "-" ++ formatNat (n + 1)

/-- The window key `fmt.Sprintf("%s|%s|%s|%d", tenant, route, model, windowStart.Unix())`. -/
def windowKey (tenant route model : String) (windowStart : Time) : String :=
  tenant ++ "|" ++ route ++ "|" ++ model ++ "|" ++ formatInt (Time.Unix windowStart)

/-- The test `resp.Error != nil && *resp.Error != ""`. -/
def LLMResponse.hasError (resp : LLMResponse) : Bool :=
  match resp.Error with
  | some e => decide (e ≠ "")
  | none => false

/-- The bucket `aggregateEvent` creates when the key is absent. -/
def newWindowAggregate (req : LLMRequest) : WindowAggregate :=
  let windowStart := Time.Truncate req.Timestamp WindowDuration
  let windowEnd := Time.Add windowStart WindowDuration
  { TenantID := req.TenantID
    Route := req.Route
    Model := req.Model
    WindowStart := windowStart
    WindowEnd := windowEnd
    Requests := 0
    Errors := 0
    Latencies := []
    PromptTokens := []
    CompTokens := [] }

/-- The updates `aggregateEvent` applies to the bucket it found or created. -/
def WindowAggregate.update (agg : WindowAggregate) (req : LLMRequest) (resp : LLMResponse) :
    WindowAggregate :=
  { agg with
    Requests := agg.Requests + 1
    Errors := if resp.hasError then agg.Errors + 1 else agg.Errors
    Latencies := agg.Latencies ++ [resp.LatencyMs]
    PromptTokens := agg.PromptTokens ++ [req.PromptTokens]
    CompTokens := agg.CompTokens ++ [resp.CompletionTokens] }

/-- The key under which `aggregateEvent` files a request. -/
def requestKey (req : LLMRequest) : String :=
  windowKey req.TenantID req.Route req.Model (Time.Truncate req.Timestamp WindowDuration)

/-- The method `aggregateEvent`. -/
def aggregateEvent (p : MetricsProcessor) (req : LLMRequest) (resp : LLMResponse) :
    MetricsProcessor :=
  let key := requestKey req
  let agg :=
    match p.windowAggregates.get key with
    | some agg => agg
    | none => newWindowAggregate req
  { p with windowAggregates := p.windowAggregates.set key (agg.update req resp) }

/-- The method `processRequest`, on a decoded record. -/
def processRequest (p : MetricsProcessor) (req : LLMRequest) : MetricsProcessor :=
  { p with requestState := p.requestState.set req.RequestID req }

/-- The method `processResponse`, on a decoded record. -/
def processResponse (p : MetricsProcessor) (resp : LLMResponse) : MetricsProcessor :=
  let p1 := { p with responseState := p.responseState.set resp.RequestID resp }
  match p1.requestState.get resp.RequestID with
  | none => p1
  | some req => aggregateEvent p1 req resp

/-- Wrap-around of a 64-bit signed integer (Go `int` on the supported platforms). -/
def wrapInt64 (x : Int) : Int := (x + 2 ^ 63) % 2 ^ 64 - 2 ^ 63

/-- The loop `sum := 0; for _, l := range xs { sum += l }`. -/
def sumInts (xs : List Int) : Int :=
  xs.foldl (fun sum l => wrapInt64 (sum + l)) 0

/-- A finite non-negative `float64`, with value `mant / 2 ^ exp`. -/
structure Float64 where
  mant : Nat
  exp : Nat
deriving DecidableEq, Repr

/-- Round a natural number to 53 significant bits, to nearest, ties to even: the rounding
every `float64` operation applies to its exact result (normal range), in integer arithmetic.
It is `roundToFloat64` on the natural numbers (`roundToFloat64_eq_roundNearestEven`). -/
def roundNearestEven (a : Nat) : Nat :=
  let s := (Nat.log2 a + 1) - 53
  let q := a / 2 ^ s
  let r := a % 2 ^ s
  if 2 ^ s < 2 * r ∨ (2 * r = 2 ^ s ∧ q % 2 = 1) then (q + 1) * 2 ^ s else q * 2 ^ s

/-- The conversion `float64(n)` of a non-negative `int`. -/
def Float64.ofNat (n : Nat) : Float64 := { mant := roundNearestEven n, exp := 0 }

/-- The product `x * y` of two `float64` values. -/
def Float64.mul (x y : Float64) : Float64 :=
  { mant := roundNearestEven (x.mant * y.mant), exp := x.exp + y.exp }

/-- The conversion `int(x)`: truncation. -/
def Float64.toInt (x : Float64) : Nat := x.mant / 2 ^ x.exp

/-- The `float64` constant `0.95`, that is `0x1.e666666666666p-1`. -/
def percentile95 : Float64 := { mant := 8556839292003942, exp := 53 }

/-- The index expression `int(float64(len(sorted)-1) * percentile)`. -/
def percentileIndex (n : Nat) (percentile : Float64) : Nat :=
  Float64.toInt (Float64.mul (Float64.ofNat (n - 1)) percentile)

/-- Round a rational to the nearest integer, ties to the even one. -/
def roundHalfEven (x : ℚ) : ℤ :=
  if x - ⌊x⌋ < 1 / 2 then ⌊x⌋
  else if 1 / 2 < x - ⌊x⌋ then ⌊x⌋ + 1
  else if ⌊x⌋ % 2 = 0 then ⌊x⌋ else ⌊x⌋ + 1

/-- The `float64` nearest to a rational, ties to even: the value is scaled so that 53 bits
stand before the binary point, rounded to an integer, and scaled back (normal range). -/
def roundToFloat64 (q : ℚ) : ℚ :=
  if q = 0 then 0
  else (roundHalfEven (q / 2 ^ (Int.log 2 |q| - 52)) : ℚ) * 2 ^ (Int.log 2 |q| - 52)

/-- The function `calculatePercentile`; `none` is the run-time panic of an index out of
range.  `sort.Ints` is the ascending sort, and the result is `float64(sorted[index])`. -/
def calculatePercentile (values : List Int) (percentile : Float64) : Option ℚ :=
  if values.length = 0 then some 0
  else
    let sorted := values.insertionSort (· ≤ ·)
    let index := percentileIndex sorted.length percentile
    (sorted.get? index).map (fun (v : Int) => roundToFloat64 (v : ℚ))

/-- The method `computeMetrics`, its `float64` expressions read in exact arithmetic
(`computeMetricsFloat64` is the method with every operation rounded).  The call of
`calculatePercentile` with `0.95` does not panic on a slice of at most `2 ^ 48` samples
(`calculatePercentile_ne_none`), so its result is unwrapped. -/
def computeMetrics (agg : WindowAggregate) : LLMMetrics :=
  let avgLatencyMs : ℚ :=
    if agg.Latencies.length > 0 then
      (sumInts agg.Latencies : ℚ) / (agg.Latencies.length : ℚ)
    else 0
  let p95LatencyMs : ℚ :=
    if agg.Latencies.length > 0 then
      (calculatePercentile agg.Latencies percentile95).getD 0
    else 0
  let avgPromptTokens : ℚ :=
    if agg.PromptTokens.length > 0 then
      (sumInts agg.PromptTokens : ℚ) / (agg.PromptTokens.length : ℚ)
    else 0
  let avgCompletionTokens : ℚ :=
    if agg.CompTokens.length > 0 then
      (sumInts agg.CompTokens : ℚ) / (agg.CompTokens.length : ℚ)
    else 0
  { TenantID := agg.TenantID
    Route := agg.Route
    Model := agg.Model
    WindowStart := agg.WindowStart
    WindowEnd := agg.WindowEnd
    Requests := agg.Requests
    Errors := agg.Errors
    AvgLatencyMs := avgLatencyMs
    P95LatencyMs := p95LatencyMs
    AvgPromptTokens := avgPromptTokens
    AvgCompletionTokens := avgCompletionTokens
    EstimatedCostUSD :=
      (avgPromptTokens * 0.01 / 1000.0 * (agg.Requests : ℚ)) +
        (avgCompletionTokens * 0.03 / 1000.0 * (agg.Requests : ℚ)) }

/-- The average of `computeMetrics`: `float64(sum) / float64(len(xs))` with `sum` the result
of the summing loop, guarded by `len(xs) > 0`; `fl` rounds the exact result of each `float64`
operation. -/
def averageIn (fl : ℚ → ℚ) (xs : List Int) : ℚ :=
  if xs.length > 0 then fl (fl (sumInts xs : ℚ) / fl (xs.length : ℚ)) else 0

/-- The method `computeMetrics` with `fl` applied to the exact result of every `float64`
conversion and operation, constants included. -/
def computeMetricsIn (fl : ℚ → ℚ) (agg : WindowAggregate) : LLMMetrics :=
  let avgLatencyMs : ℚ := averageIn fl agg.Latencies
  let p95LatencyMs : ℚ :=
    if agg.Latencies.length > 0 then
      (calculatePercentile agg.Latencies percentile95).getD 0
    else 0
  let avgPromptTokens : ℚ := averageIn fl agg.PromptTokens
  let avgCompletionTokens : ℚ := averageIn fl agg.CompTokens
  { TenantID := agg.TenantID
    Route := agg.Route
    Model := agg.Model
    WindowStart := agg.WindowStart
    WindowEnd := agg.WindowEnd
    Requests := agg.Requests
    Errors := agg.Errors
    AvgLatencyMs := avgLatencyMs
    P95LatencyMs := p95LatencyMs
    AvgPromptTokens := avgPromptTokens
    AvgCompletionTokens := avgCompletionTokens
    EstimatedCostUSD :=
      fl (fl (fl (fl (avgPromptTokens * fl 0.01) / fl 1000.0) * fl (agg.Requests : ℚ)) +
        fl (fl (fl (avgCompletionTokens * fl 0.03) / fl 1000.0) * fl (agg.Requests : ℚ))) }

/-- The method `computeMetrics` in `float64` arithmetic. -/
def computeMetricsFloat64 (agg : WindowAggregate) : LLMMetrics :=
  computeMetricsIn roundToFloat64 agg

/-- The two sinks of `flushCompletedWindows`, as oracles that answer `true` when the call
returns a `nil` error: `producer.ProduceJSON(ctx, TopicLLMMetrics, key, value)` and
`store.InsertMetrics(ctx, metrics)`. -/
structure Sinks where
  ProduceJSON : String → LLMMetrics → Bool
  InsertMetrics : LLMMetrics → Bool

/-- What one run of `flushCompletedWindows` leaves behind: the window map, the records the
stream sink accepted (with their message keys) and the records the store accepted, each in
the order of the calls. -/
structure FlushResult where
  windows : GoMap WindowAggregate
  produced : List (String × LLMMetrics)
  inserted : List LLMMetrics

/-- The message key `fmt.Sprintf("%s|%s|%s", metrics.TenantID, metrics.Route, metrics.Model)`. -/
def metricsKey (metrics : LLMMetrics) : String :=
  metrics.TenantID ++ "|" ++ metrics.Route ++ "|" ++ metrics.Model

/-- One iteration of the loop of `flushCompletedWindows`, at map key `key`. -/
def flushStep (sinks : Sinks) (cutoff : Time) (acc : FlushResult) (key : String) :
    FlushResult :=
  match acc.windows.get key with
  | none => acc
  | some agg =>
    if Time.Before agg.WindowEnd cutoff then
      let metrics := computeMetrics agg
      if sinks.ProduceJSON (metricsKey metrics) metrics then
        if sinks.InsertMetrics metrics then
          { windows := acc.windows.delete key
            produced := acc.produced ++ [(metricsKey metrics, metrics)]
            inserted := acc.inserted ++ [metrics] }
        else
          { acc with produced := acc.produced ++ [(metricsKey metrics, metrics)] }
      else acc
    else acc

/-- The method `flushCompletedWindows`, with `now` the reading of `time.Now()`, and `order`
the order in which the `range` loop visits the keys of the window map. -/
def flushCompletedWindows (p : MetricsProcessor) (now : Time) (sinks : Sinks)
    (order : List String) : FlushResult :=
  let cutoff := Time.Add now (-WindowDuration)
  order.foldl (flushStep sinks cutoff)
    { windows := p.windowAggregates, produced := [], inserted := [] }

/-- One iteration of an eviction loop of `cleanupState` over requests. -/
def evictRequest (cutoff : Time) (m : GoMap LLMRequest) (id : String) : GoMap LLMRequest :=
  match m.get id with
  | none => m
  | some req => if Time.Before req.Timestamp cutoff then m.delete id else m

/-- One iteration of an eviction loop of `cleanupState` over responses. -/
def evictResponse (cutoff : Time) (m : GoMap LLMResponse) (id : String) : GoMap LLMResponse :=
  match m.get id with
  | none => m
  | some resp => if Time.Before resp.Timestamp cutoff then m.delete id else m

/-- One tick of `cleanupState`, with `now` the reading of `time.Now()`, and the orders in
which the two `range` loops visit the keys. -/
def cleanupState (p : MetricsProcessor) (now : Time) (requestOrder responseOrder : List String) :
    MetricsProcessor :=
  let cutoff := Time.Add now (-StateRetentionDuration)
  { p with
    requestState := requestOrder.foldl (evictRequest cutoff) p.requestState
    responseState := responseOrder.foldl (evictResponse cutoff) p.responseState }

/-- A valid visiting order of a `range` loop over `m`: every key of `m`, each once. -/
def GoMap.IsRange {V : Type} (m : GoMap V) (order : List String) : Prop :=
  order.Nodup ∧ ∀ k, k ∈ order ↔ (m.get k).isSome = true

/-- The processor states that can arise: the fresh state, then any sequence of handled
requests, handled responses, flush ticks and eviction ticks. -/
inductive Reachable : MetricsProcessor → Prop
  | init : Reachable NewMetricsProcessor
  | request (p : MetricsProcessor) (req : LLMRequest) :
      Reachable p → Reachable (processRequest p req)
  | response (p : MetricsProcessor) (resp : LLMResponse) :
      Reachable p → Reachable (processResponse p resp)
  | flush (p : MetricsProcessor) (now : Time) (sinks : Sinks) (order : List String) :
      Reachable p → p.windowAggregates.IsRange order →
      Reachable { p with windowAggregates := (flushCompletedWindows p now sinks order).windows }
  | cleanup (p : MetricsProcessor) (now : Time) (requestOrder responseOrder : List String) :
      Reachable p → p.requestState.IsRange requestOrder →
      p.responseState.IsRange responseOrder →
      Reachable (cleanupState p now requestOrder responseOrder)

/-! ## Notions used in the statements -/

/-- The bucket `aggregateEvent` starts from: the one filed under the request's key, or a
fresh one. -/
def bucketBefore (p : MetricsProcessor) (req : LLMRequest) : WindowAggregate :=
  (p.windowAggregates.get (requestKey req)).getD (newWindowAggregate req)

/-- The buckets a flush at `cutoff` removes: past the cutoff, and accepted by both sinks. -/
def flushRemoves (sinks : Sinks) (cutoff : Time) (agg : WindowAggregate) : Bool :=
  Time.Before agg.WindowEnd cutoff &&
    (sinks.ProduceJSON (metricsKey (computeMetrics agg)) (computeMetrics agg) &&
      sinks.InsertMetrics (computeMetrics agg))

/-- The message a flush at `cutoff` gets published for the bucket at `key`, if any. -/
def flushProduces (sinks : Sinks) (cutoff : Time) (m : GoMap WindowAggregate) (key : String) :
    Option (String × LLMMetrics) :=
  match m.get key with
  | none => none
  | some agg =>
    if Time.Before agg.WindowEnd cutoff &&
        sinks.ProduceJSON (metricsKey (computeMetrics agg)) (computeMetrics agg) then
      some (metricsKey (computeMetrics agg), computeMetrics agg)
    else none

/-- The record a flush at `cutoff` gets stored for the bucket at `key`, if any. -/
def flushInserts (sinks : Sinks) (cutoff : Time) (m : GoMap WindowAggregate) (key : String) :
    Option LLMMetrics :=
  match m.get key with
  | none => none
  | some agg => if flushRemoves sinks cutoff agg then some (computeMetrics agg) else none

/-- Whether the bucket filed under `key` is past `cutoff`. -/
def isDue (m : GoMap WindowAggregate) (cutoff : Time) (key : String) : Bool :=
  match m.get key with
  | none => false
  | some agg => Time.Before agg.WindowEnd cutoff

/-- The well-formedness of a filed bucket: its key is the window key of its own fields, its
start is a multiple of the window length and its end is one window length later. -/
def KeyConsistent (k : String) (b : WindowAggregate) : Prop :=
  k = windowKey b.TenantID b.Route b.Model b.WindowStart ∧
    b.WindowStart % WindowDuration = 0 ∧ b.WindowEnd = b.WindowStart + WindowDuration

/-! ## Scenario inputs -/

/-- The request of the happy-pair scenario: `r1`, tenant `t`, route `chat`, model `m`,
2024-01-01T00:00:17Z, 100 prompt tokens. -/
def happyRequest : LLMRequest :=
  { RequestID := "r1"
    TenantID := "t"
    Route := "chat"
    Model := "m"
    Timestamp := Time.ofUnix 1704067217
    PromptTokens := 100
    UserIDHash := none
    Metadata := [] }

/-- The response of the happy-pair scenario: `r1`, 2024-01-01T00:00:18Z, latency 500 ms,
200 completion tokens, finish reason `stop`, no error. -/
def happyResponse : LLMResponse :=
  { RequestID := "r1"
    Timestamp := Time.ofUnix 1704067218
    LatencyMs := 500
    CompletionTokens := 200
    FinishReason := "stop"
    Error := none }

/-- The state after the happy pair: the fresh processor, then the request, then the
response. -/
def happyState : MetricsProcessor :=
  processResponse (processRequest NewMetricsProcessor happyRequest) happyResponse

/-- The bucket the happy pair is folded into. -/
def happyBucket : WindowAggregate :=
  { TenantID := "t"
    Route := "chat"
    Model := "m"
    WindowStart := Time.ofUnix 1704067200
    WindowEnd := Time.ofUnix 1704067260
    Requests := 1
    Errors := 0
    Latencies := [500]
    PromptTokens := [100]
    CompTokens := [200] }

/-- The record the happy-pair scenario expects: window 2024-01-01T00:00:00Z to
2024-01-01T00:01:00Z, one request, no error, latency 500 ms, 100 and 200 tokens, cost 0.0070. -/
def happyMetrics : LLMMetrics :=
  { TenantID := "t"
    Route := "chat"
    Model := "m"
    WindowStart := Time.ofUnix 1704067200
    WindowEnd := Time.ofUnix 1704067260
    Requests := 1
    Errors := 0
    AvgLatencyMs := 500
    P95LatencyMs := 500
    AvgPromptTokens := 100
    AvgCompletionTokens := 200
    EstimatedCostUSD := 0.0070 }

/-- Sinks that accept every record. -/
def sinksOk : Sinks :=
  { ProduceJSON := fun _ _ => true
    InsertMetrics := fun _ => true }

/-- Sinks where the stream accepts every record and the store rejects every record. -/
def sinksStoreDown : Sinks :=
  { ProduceJSON := fun _ _ => true
    InsertMetrics := fun _ => false }

/-- A second request of the same tenant, route and model, one minute after the happy request
(2024-01-01T00:01:17Z). -/
def laterRequest : LLMRequest :=
  { happyRequest with RequestID := "r2", Timestamp := Time.ofUnix 1704067277 }

/-- The response to `laterRequest` (2024-01-01T00:01:18Z). -/
def laterResponse : LLMResponse :=
  { happyResponse with RequestID := "r2", Timestamp := Time.ofUnix 1704067278 }

/-- The bucket `laterRequest` and `laterResponse` are folded into: the window from
2024-01-01T00:01:00Z to 2024-01-01T00:02:00Z. -/
def laterBucket : WindowAggregate :=
  { happyBucket with
    WindowStart := Time.ofUnix 1704067260
    WindowEnd := Time.ofUnix 1704067320 }

/-- The state after the happy pair and the later pair: two buckets, one per window. -/
def twoWindowState : MetricsProcessor :=
  processResponse (processRequest (processResponse
    (processRequest NewMetricsProcessor happyRequest) happyResponse) laterRequest) laterResponse

/-- A request of tenant `a|b` on route `c`, at the time of the happy request. -/
def pipeRequestA : LLMRequest :=
  { happyRequest with RequestID := "r1", TenantID := "a|b", Route := "c" }

/-- A request of tenant `a` on route `b|c`, at the time of the happy request. -/
def pipeRequestB : LLMRequest :=
  { happyRequest with RequestID := "r2", TenantID := "a", Route := "b|c" }

/-- What `computeMetrics` makes of one sample list in `float64` arithmetic.  It is 0 for the
empty list.  Otherwise it is the rounded quotient of the conversions of the loop sum (the
exact sum reduced modulo `2 ^ 64` into the `int` range) and of the length; when the exact sum
has magnitude at most `2 ^ 53`, that is the `float64` nearest to the exact mean, within a
relative error of `2 ^ (-53)` of it, and the exact mean itself when the length divides the
sum. -/
def IsFloat64Average (xs : List Int) (avg : ℚ) : Prop :=
  (xs = [] → avg = 0) ∧
  (xs ≠ [] → avg = roundToFloat64
    (roundToFloat64 (wrapInt64 xs.sum : ℚ) / roundToFloat64 (xs.length : ℚ))) ∧
  (xs ≠ [] → |xs.sum| ≤ 2 ^ 53 → xs.length ≤ 2 ^ 53 →
    avg = roundToFloat64 ((xs.sum : ℚ) / (xs.length : ℚ)) ∧
    |avg - (xs.sum : ℚ) / (xs.length : ℚ)| ≤ |(xs.sum : ℚ) / (xs.length : ℚ)| / 2 ^ 53 ∧
    ((xs.length : Int) ∣ xs.sum → avg = (xs.sum : ℚ) / (xs.length : ℚ)))

/-- A bucket with the single latency `2 ^ 53 + 1`. -/
def hugeLatencyBucket : WindowAggregate :=
  { happyBucket with Latencies := [9007199254740993] }

/-- A bucket with the three latencies 1, 1 and 2. -/
def thirdsBucket : WindowAggregate :=
  { happyBucket with
    Requests := 3
    Latencies := [1, 1, 2]
    PromptTokens := [100, 100, 100]
    CompTokens := [200, 200, 200] }

/-! # Properties -/

/-! ## Go maps: lookup after update -/

section GoMapLemmas

variable {V : Type}

@[simp] theorem GoMap.get_empty (k : String) : (GoMap.empty : GoMap V).get k = none := rfl

@[simp] theorem GoMap.get_set_self (m : GoMap V) (k : String) (v : V) :
    (m.set k v).get k = some v := by
  simp [GoMap.get, GoMap.set]

theorem GoMap.get_set_of_ne (m : GoMap V) {k j : String} (v : V) (h : j ≠ k) :
    (m.set k v).get j = m.get j := by
  simp [GoMap.get, GoMap.set, h]

@[simp] theorem GoMap.get_delete_self (m : GoMap V) (k : String) :
    (m.delete k).get k = none := by
  simp [GoMap.get, GoMap.delete]

theorem GoMap.get_delete_of_ne (m : GoMap V) {k j : String} (h : j ≠ k) :
    (m.delete k).get j = m.get j := by
  simp [GoMap.get, GoMap.delete, h]

theorem GoMap.ext_get {m n : GoMap V} (h : ∀ k, m.get k = n.get k) : m = n :=
  funext h

end GoMapLemmas

/-! ## The handlers, step by step -/

@[simp] theorem processRequest_windowAggregates (p : MetricsProcessor) (req : LLMRequest) :
    (processRequest p req).windowAggregates = p.windowAggregates := rfl

@[simp] theorem processRequest_requestState (p : MetricsProcessor) (req : LLMRequest) :
    (processRequest p req).requestState = p.requestState.set req.RequestID req := rfl

@[simp] theorem processRequest_responseState (p : MetricsProcessor) (req : LLMRequest) :
    (processRequest p req).responseState = p.responseState := rfl

@[simp] theorem aggregateEvent_requestState (p : MetricsProcessor) (req : LLMRequest)
    (resp : LLMResponse) : (aggregateEvent p req resp).requestState = p.requestState := rfl

@[simp] theorem aggregateEvent_responseState (p : MetricsProcessor) (req : LLMRequest)
    (resp : LLMResponse) : (aggregateEvent p req resp).responseState = p.responseState := rfl

theorem aggregateEvent_windowAggregates (p : MetricsProcessor) (req : LLMRequest)
    (resp : LLMResponse) :
    (aggregateEvent p req resp).windowAggregates =
      p.windowAggregates.set (requestKey req) ((bucketBefore p req).update req resp) := by
  unfold aggregateEvent bucketBefore
  cases h : p.windowAggregates.get (requestKey req) <;> simp [h]

theorem aggregateEvent_get_self (p : MetricsProcessor) (req : LLMRequest) (resp : LLMResponse) :
    (aggregateEvent p req resp).windowAggregates.get (requestKey req) =
      some ((bucketBefore p req).update req resp) := by
  rw [aggregateEvent_windowAggregates, GoMap.get_set_self]

theorem aggregateEvent_get_of_ne (p : MetricsProcessor) (req : LLMRequest) (resp : LLMResponse)
    {k : String} (h : k ≠ requestKey req) :
    (aggregateEvent p req resp).windowAggregates.get k = p.windowAggregates.get k := by
  rw [aggregateEvent_windowAggregates, GoMap.get_set_of_ne _ _ h]

@[simp] theorem processResponse_requestState (p : MetricsProcessor) (resp : LLMResponse) :
    (processResponse p resp).requestState = p.requestState := by
  unfold processResponse
  cases h : p.requestState.get resp.RequestID <;> simp [h]

theorem processResponse_of_found (p : MetricsProcessor) (resp : LLMResponse) (req : LLMRequest)
    (h : p.requestState.get resp.RequestID = some req) :
    (processResponse p resp).windowAggregates =
      p.windowAggregates.set (requestKey req) ((bucketBefore p req).update req resp) := by
  unfold processResponse
  simp only [h]
  rw [aggregateEvent_windowAggregates]
  rfl

theorem processResponse_of_not_found (p : MetricsProcessor) (resp : LLMResponse)
    (h : p.requestState.get resp.RequestID = none) :
    (processResponse p resp).windowAggregates = p.windowAggregates := by
  unfold processResponse
  simp only [h]

/-- A request followed by two copies of its response, from the fresh state: the bucket of
the request's window has been updated twice. -/
theorem request_response_response (req : LLMRequest) (resp : LLMResponse)
    (hid : resp.RequestID = req.RequestID) :
    (processResponse (processResponse (processRequest NewMetricsProcessor req) resp)
        resp).windowAggregates.get (requestKey req) =
      some (((newWindowAggregate req).update req resp).update req resp) := by
  have h1 : (processRequest NewMetricsProcessor req).requestState.get resp.RequestID =
      some req := by
    rw [processRequest_requestState, hid, GoMap.get_set_self]
  have h2 : (processResponse (processRequest NewMetricsProcessor req) resp).requestState.get
      resp.RequestID = some req := by
    rw [processResponse_requestState]; exact h1
  rw [processResponse_of_found _ _ _ h2, GoMap.get_set_self]
  have h3 : bucketBefore (processResponse (processRequest NewMetricsProcessor req) resp) req =
      (newWindowAggregate req).update req resp := by
    unfold bucketBefore
    rw [processResponse_of_found _ _ _ h1, GoMap.get_set_self]
    rfl
  rw [h3]

/-- A request followed by its response, from the fresh state: the window map holds one
bucket, updated once. -/
theorem request_response (req : LLMRequest) (resp : LLMResponse)
    (hid : resp.RequestID = req.RequestID) :
    (processResponse (processRequest NewMetricsProcessor req) resp).windowAggregates =
      GoMap.empty.set (requestKey req) ((newWindowAggregate req).update req resp) := by
  have h1 : (processRequest NewMetricsProcessor req).requestState.get resp.RequestID =
      some req := by
    rw [processRequest_requestState, hid, GoMap.get_set_self]
  rw [processResponse_of_found _ _ _ h1]
  rfl

/-- A response followed by a request, from the fresh state: the window map is empty. -/
theorem response_request (req : LLMRequest) (resp : LLMResponse) :
    (processRequest (processResponse NewMetricsProcessor resp) req).windowAggregates =
      GoMap.empty := by
  rw [processRequest_windowAggregates, processResponse_of_not_found]
  · rfl
  · rfl

/-! ## Validation -/

/-- C10. `LLMRequest.Validate` returns `nil` exactly when `RequestID`, `TenantID`, `Route`
and `Model` are non-empty and `Timestamp` is not the zero time; otherwise it returns the
error of the first missing field, in the order request_id, tenant_id, route, model,
timestamp; `PromptTokens`, `UserIDHash` and `Metadata` do not affect the result. -/
theorem LLMRequest.validate_spec (r : LLMRequest) :
    (r.Validate = none ↔
      r.RequestID ≠ "" ∧ r.TenantID ≠ "" ∧ r.Route ≠ "" ∧ r.Model ≠ "" ∧ r.Timestamp ≠ 0) ∧
    (r.Validate = some ModelError.ErrMissingRequestID ↔ r.RequestID = "") ∧
    (r.Validate = some ModelError.ErrMissingTenantID ↔ r.RequestID ≠ "" ∧ r.TenantID = "") ∧
    (r.Validate = some ModelError.ErrMissingRoute ↔
      r.RequestID ≠ "" ∧ r.TenantID ≠ "" ∧ r.Route = "") ∧
    (r.Validate = some ModelError.ErrMissingModel ↔
      r.RequestID ≠ "" ∧ r.TenantID ≠ "" ∧ r.Route ≠ "" ∧ r.Model = "") ∧
    (r.Validate = some ModelError.ErrMissingTimestamp ↔
      r.RequestID ≠ "" ∧ r.TenantID ≠ "" ∧ r.Route ≠ "" ∧ r.Model ≠ "" ∧ r.Timestamp = 0) ∧
    (∀ (promptTokens : Int) (userIDHash : Option String) (metadata : List (String × String)),
      LLMRequest.Validate
        { r with PromptTokens := promptTokens, UserIDHash := userIDHash, Metadata := metadata } =
        r.Validate) := by
  unfold LLMRequest.Validate Time.IsZero
  by_cases h1 : r.RequestID = "" <;> by_cases h2 : r.TenantID = "" <;>
    by_cases h3 : r.Route = "" <;> by_cases h4 : r.Model = "" <;>
    by_cases h5 : r.Timestamp = 0 <;> simp [h1, h2, h3, h4, h5]

/-! ## Folding a matched pair -/

/-- C6. `aggregateEvent(req, resp)` works on the bucket filed under the request's window key,
a fresh bucket with zero counts and empty samples when the key is absent: it adds exactly 1
to `Requests`, adds 1 to `Errors` exactly when `resp.Error` is present and not the empty
string, appends `resp.LatencyMs`, `req.PromptTokens` and `resp.CompletionTokens` at the end
of their sample lists, leaves the key fields of the bucket untouched, and leaves every other
bucket of the map, and the pair store, unchanged. -/
theorem aggregateEvent_fold (p : MetricsProcessor) (req : LLMRequest) (resp : LLMResponse) :
    (∃ old new : WindowAggregate,
      old = (p.windowAggregates.get (requestKey req)).getD
        { TenantID := req.TenantID, Route := req.Route, Model := req.Model,
          WindowStart := Time.Truncate req.Timestamp WindowDuration,
          WindowEnd := Time.Truncate req.Timestamp WindowDuration + WindowDuration,
          Requests := 0, Errors := 0, Latencies := [], PromptTokens := [], CompTokens := [] } ∧
      (aggregateEvent p req resp).windowAggregates.get (requestKey req) = some new ∧
      new.Requests = old.Requests + 1 ∧
      (new.Errors = old.Errors + 1 ↔ ∃ e, resp.Error = some e ∧ e ≠ "") ∧
      (new.Errors = old.Errors ↔ ¬ ∃ e, resp.Error = some e ∧ e ≠ "") ∧
      new.Latencies = old.Latencies ++ [resp.LatencyMs] ∧
      new.PromptTokens = old.PromptTokens ++ [req.PromptTokens] ∧
      new.CompTokens = old.CompTokens ++ [resp.CompletionTokens] ∧
      new.TenantID = old.TenantID ∧ new.Route = old.Route ∧ new.Model = old.Model ∧
      new.WindowStart = old.WindowStart ∧ new.WindowEnd = old.WindowEnd) ∧
    (∀ k, k ≠ requestKey req →
      (aggregateEvent p req resp).windowAggregates.get k = p.windowAggregates.get k) ∧
    (aggregateEvent p req resp).requestState = p.requestState ∧
    (aggregateEvent p req resp).responseState = p.responseState := by
  refine ⟨⟨bucketBefore p req, (bucketBefore p req).update req resp, rfl,
    aggregateEvent_get_self p req resp, rfl, ?_, ?_, rfl, rfl, rfl, rfl, rfl, rfl, rfl, rfl⟩,
    fun k hk => aggregateEvent_get_of_ne p req resp hk, rfl, rfl⟩
  · unfold WindowAggregate.update LLMResponse.hasError
    cases he : resp.Error with
    | none => simp
    | some e => by_cases h : e = "" <;> simp [h]
  · unfold WindowAggregate.update LLMResponse.hasError
    cases he : resp.Error with
    | none => simp
    | some e => by_cases h : e = "" <;> simp [h]

/-! ## Duplicate and out-of-order arrivals -/

/-- C1, as the code has it. From the fresh state, a request followed by two copies of a
response with the same `request_id` folds the pair twice: the bucket of the request's
window ends with `Requests = 2` and two latency samples, both `resp.LatencyMs` (after the
first copy alone it has `Requests = 1` and one sample). -/
theorem duplicate_response_folds_twice (req : LLMRequest) (resp : LLMResponse)
    (hid : resp.RequestID = req.RequestID) :
    (∃ b, (processResponse (processRequest NewMetricsProcessor req)
        resp).windowAggregates.get (requestKey req) = some b ∧
      b.Requests = 1 ∧ b.Latencies = [resp.LatencyMs]) ∧
    (∃ b, (processResponse (processResponse (processRequest NewMetricsProcessor req) resp)
        resp).windowAggregates.get (requestKey req) = some b ∧
      b.Requests = 2 ∧ b.Latencies = [resp.LatencyMs, resp.LatencyMs]) := by
  constructor
  · refine ⟨(newWindowAggregate req).update req resp, ?_, rfl, rfl⟩
    rw [request_response req resp hid, GoMap.get_set_self]
  · exact ⟨_, request_response_response req resp hid, rfl, rfl⟩

/-- Witness of `duplicate_response_folds_twice` at the happy-pair scenario. -/
theorem duplicate_response_folds_twice_witness :
    happyResponse.RequestID = happyRequest.RequestID ∧
    (∃ b, (processResponse (processResponse (processRequest NewMetricsProcessor happyRequest)
        happyResponse) happyResponse).windowAggregates.get (requestKey happyRequest) = some b ∧
      b.Requests = 2 ∧ b.Latencies = [500, 500]) :=
  ⟨rfl, (duplicate_response_folds_twice happyRequest happyResponse rfl).2⟩

/-- C1 fails as stated: after the happy-pair request and two copies of its response, the
bucket of the request's window does not have `Requests = 1` and one latency sample. -/
theorem duplicate_response_counterexample :
    ¬ ∃ b, (processResponse (processResponse (processRequest NewMetricsProcessor happyRequest)
        happyResponse) happyResponse).windowAggregates.get (requestKey happyRequest) = some b ∧
      b.Requests = 1 ∧ b.Latencies.length = 1 := by
  rintro ⟨b, hb, hreq, -⟩
  rw [request_response_response happyRequest happyResponse rfl] at hb
  cases hb
  revert hreq
  decide

/-- C2 at the happy pair. Handled response first, the pair is never folded and the window
map stays empty; handled request first, the window map holds the bucket with
`Requests = 1`: the two orders do not yield the same window map. -/
theorem out_of_order_not_joined :
    (processRequest (processResponse NewMetricsProcessor happyResponse)
        happyRequest).windowAggregates.get (requestKey happyRequest) = none ∧
    (∃ b, (processResponse (processRequest NewMetricsProcessor happyRequest)
        happyResponse).windowAggregates.get (requestKey happyRequest) = some b ∧
      b.Requests = 1) ∧
    (processRequest (processResponse NewMetricsProcessor happyResponse)
        happyRequest).windowAggregates ≠
      (processResponse (processRequest NewMetricsProcessor happyRequest)
        happyResponse).windowAggregates := by
  have h1 := response_request happyRequest happyResponse
  have h2 := request_response happyRequest happyResponse rfl
  refine ⟨by rw [h1]; rfl, ⟨_, by rw [h2, GoMap.get_set_self], rfl⟩, ?_⟩
  intro h
  have h3 := congrArg (fun m => GoMap.get m (requestKey happyRequest)) h
  simp only [h1, h2, GoMap.get_set_self, GoMap.get_empty] at h3
  cases h3

/-! ## The flush loop -/

theorem flushStep_windows_get (sinks : Sinks) (cutoff : Time) (acc : FlushResult)
    (key k : String) :
    (flushStep sinks cutoff acc key).windows.get k =
      if k = key then
        (acc.windows.get key).bind fun agg =>
          if flushRemoves sinks cutoff agg then none else some agg
      else acc.windows.get k := by
  unfold flushStep flushRemoves
  by_cases hk : k = key
  · subst hk
    cases hg : acc.windows.get k with
    | none => simp [hg]
    | some agg =>
      by_cases h1 : Time.Before agg.WindowEnd cutoff = true <;>
        by_cases h2 : sinks.ProduceJSON (metricsKey (computeMetrics agg))
          (computeMetrics agg) = true <;>
        by_cases h3 : sinks.InsertMetrics (computeMetrics agg) = true <;>
        simp [hg, h1, h2, h3]
  · cases hg : acc.windows.get key with
    | none => simp [hk]
    | some agg =>
      by_cases h1 : Time.Before agg.WindowEnd cutoff = true <;>
        by_cases h2 : sinks.ProduceJSON (metricsKey (computeMetrics agg))
          (computeMetrics agg) = true <;>
        by_cases h3 : sinks.InsertMetrics (computeMetrics agg) = true <;>
        simp [hk, h1, h2, h3, GoMap.get_delete_of_ne]

theorem flushStep_produced (sinks : Sinks) (cutoff : Time) (acc : FlushResult) (key : String) :
    (flushStep sinks cutoff acc key).produced =
      acc.produced ++ (flushProduces sinks cutoff acc.windows key).toList := by
  unfold flushStep flushProduces
  cases hg : acc.windows.get key with
  | none => simp
  | some agg =>
    by_cases h1 : Time.Before agg.WindowEnd cutoff = true <;>
      by_cases h2 : sinks.ProduceJSON (metricsKey (computeMetrics agg))
        (computeMetrics agg) = true <;>
      by_cases h3 : sinks.InsertMetrics (computeMetrics agg) = true <;>
      simp [h1, h2, h3]

theorem flushStep_inserted (sinks : Sinks) (cutoff : Time) (acc : FlushResult) (key : String) :
    (flushStep sinks cutoff acc key).inserted =
      acc.inserted ++ (flushInserts sinks cutoff acc.windows key).toList := by
  unfold flushStep flushInserts flushRemoves
  cases hg : acc.windows.get key with
  | none => simp
  | some agg =>
    by_cases h1 : Time.Before agg.WindowEnd cutoff = true <;>
      by_cases h2 : sinks.ProduceJSON (metricsKey (computeMetrics agg))
        (computeMetrics agg) = true <;>
      by_cases h3 : sinks.InsertMetrics (computeMetrics agg) = true <;>
      simp [h1, h2, h3]

/-- The window map after the loop: a visited key loses its bucket exactly when the bucket is
past the cutoff and both sinks accepted its record. -/
theorem flushLoop_windows_get (sinks : Sinks) (cutoff : Time) (order : List String)
    (acc : FlushResult) (k : String) :
    (order.foldl (flushStep sinks cutoff) acc).windows.get k =
      if k ∈ order then
        (acc.windows.get k).bind fun agg =>
          if flushRemoves sinks cutoff agg then none else some agg
      else acc.windows.get k := by
  induction order generalizing acc with
  | nil => simp
  | cons key rest ih =>
    rw [List.foldl_cons, ih, flushStep_windows_get]
    by_cases hk : k = key
    · subst hk
      cases hg : acc.windows.get k with
      | none => simp
      | some agg =>
        by_cases hr : flushRemoves sinks cutoff agg = true <;> simp [hr]
    · simp [hk]

theorem flushLoop_produced (sinks : Sinks) (cutoff : Time) (order : List String)
    (acc : FlushResult) (hnodup : order.Nodup) :
    (order.foldl (flushStep sinks cutoff) acc).produced =
      acc.produced ++ order.filterMap (flushProduces sinks cutoff acc.windows) := by
  induction order generalizing acc with
  | nil => simp
  | cons key rest ih =>
    have hkey : key ∉ rest := (List.nodup_cons.mp hnodup).1
    rw [List.foldl_cons, ih _ (List.nodup_cons.mp hnodup).2, flushStep_produced,
      List.filterMap_cons, List.append_assoc]
    have hrest : rest.filterMap (flushProduces sinks cutoff
        (flushStep sinks cutoff acc key).windows) =
        rest.filterMap (flushProduces sinks cutoff acc.windows) := by
      apply List.filterMap_congr
      intro k hk
      have hne : k ≠ key := fun h => hkey (h ▸ hk)
      unfold flushProduces
      rw [flushStep_windows_get, if_neg hne]
    rw [hrest]
    cases flushProduces sinks cutoff acc.windows key <;> simp

theorem flushLoop_inserted (sinks : Sinks) (cutoff : Time) (order : List String)
    (acc : FlushResult) (hnodup : order.Nodup) :
    (order.foldl (flushStep sinks cutoff) acc).inserted =
      acc.inserted ++ order.filterMap (flushInserts sinks cutoff acc.windows) := by
  induction order generalizing acc with
  | nil => simp
  | cons key rest ih =>
    have hkey : key ∉ rest := (List.nodup_cons.mp hnodup).1
    rw [List.foldl_cons, ih _ (List.nodup_cons.mp hnodup).2, flushStep_inserted,
      List.filterMap_cons, List.append_assoc]
    have hrest : rest.filterMap (flushInserts sinks cutoff
        (flushStep sinks cutoff acc key).windows) =
        rest.filterMap (flushInserts sinks cutoff acc.windows) := by
      apply List.filterMap_congr
      intro k hk
      have hne : k ≠ key := fun h => hkey (h ▸ hk)
      unfold flushInserts
      rw [flushStep_windows_get, if_neg hne]
    rw [hrest]
    cases flushInserts sinks cutoff acc.windows key <;> simp

/-- Every bucket of the window map after a flush was in the map before it, unchanged. -/
theorem flushCompletedWindows_get_some (p : MetricsProcessor) (now : Time) (sinks : Sinks)
    (order : List String) (k : String) (b : WindowAggregate)
    (h : (flushCompletedWindows p now sinks order).windows.get k = some b) :
    p.windowAggregates.get k = some b := by
  unfold flushCompletedWindows at h
  rw [flushLoop_windows_get] at h
  by_cases hk : k ∈ order
  · rw [if_pos hk] at h
    cases hg : p.windowAggregates.get k with
    | none => simp [hg] at h
    | some agg =>
      simp only [hg, Option.some_bind] at h
      by_cases hr : flushRemoves sinks (Time.Add now (-WindowDuration)) agg = true
      · simp [hr] at h
      · simp only [hr] at h
        simpa using h
  · rw [if_neg hk] at h
    exact h

/-! ## The window key ends in the window start -/

theorem digitChar_ne_sep : ∀ d, d < 10 → Nat.digitChar d ≠ '|' ∧ Nat.digitChar d ≠ '-' := by
  decide

theorem digitChar_inj : ∀ d, d < 10 → ∀ e, e < 10 → Nat.digitChar d = Nat.digitChar e → d = e := by
  decide

theorem map_digitChar_inj (l₁ l₂ : List Nat) (h₁ : ∀ d ∈ l₁, d < 10) (h₂ : ∀ d ∈ l₂, d < 10)
    (h : l₁.map Nat.digitChar = l₂.map Nat.digitChar) : l₁ = l₂ := by
  induction l₁ generalizing l₂ with
  | nil =>
    cases l₂ with
    | nil => rfl
    | cons e l₂ => simp at h
  | cons d l₁ ih =>
    cases l₂ with
    | nil => simp at h
    | cons e l₂ =>
      simp only [List.map_cons, List.cons.injEq] at h
      have hd : d = e :=
        digitChar_inj d (h₁ d (List.mem_cons_self _ _)) e (h₂ e (List.mem_cons_self _ _)) h.1
      have ht : l₁ = l₂ :=
        ih l₂ (fun x hx => h₁ x (List.mem_cons_of_mem _ hx))
          (fun x hx => h₂ x (List.mem_cons_of_mem _ hx)) h.2
      rw [hd, ht]

theorem formatNat_no_sep (n : Nat) : ∀ c ∈ (formatNat n).data, c ≠ '|' ∧ c ≠ '-' := by
  intro c hc
  unfold formatNat at hc
  by_cases h : n = 0
  · rw [if_pos h] at hc
    have hc0 : c = '0' := by simpa using hc
    rw [hc0]
    decide
  · rw [if_neg h] at hc
    simp only [List.mem_map, List.mem_reverse] at hc
    obtain ⟨d, hd, rfl⟩ := hc
    exact digitChar_ne_sep d (Nat.digits_lt_base (by norm_num) hd)

theorem formatNat_ne_nil (n : Nat) : (formatNat n).data ≠ [] := by
  unfold formatNat
  by_cases h : n = 0
  · rw [if_pos h]; decide
  · rw [if_neg h]
    simp only [ne_eq, List.map_eq_nil_iff, List.reverse_eq_nil_iff]
    exact fun hd => h (Nat.digits_eq_nil_iff_eq_zero.mp hd)

theorem formatNat_inj (n m : Nat) (h : formatNat n = formatNat m) : n = m := by
  have hdata : (formatNat n).data = (formatNat m).data := by rw [h]
  have key : ∀ a b : Nat, a = 0 → b ≠ 0 → (formatNat a).data ≠ (formatNat b).data := by
    intro a b ha hb hab
    unfold formatNat at hab
    rw [if_pos ha, if_neg hb] at hab
    have h0 : ['0'] = [(0 : Nat)].map Nat.digitChar := by decide
    have hab' : [(0 : Nat)].map Nat.digitChar = (Nat.digits 10 b).reverse.map Nat.digitChar := by
      rw [← h0]; exact hab
    have hrev := map_digitChar_inj _ _ (by simp) (fun d hd => Nat.digits_lt_base (by norm_num)
      (List.mem_reverse.mp hd)) hab'
    have hdig : Nat.digits 10 b = [0] := by
      have := congrArg List.reverse hrev
      simpa using this.symm
    have hb0 : Nat.ofDigits 10 (Nat.digits 10 b) = 0 := by rw [hdig]; simp [Nat.ofDigits]
    rw [Nat.ofDigits_digits] at hb0
    exact hb hb0
  by_cases hn : n = 0
  · by_cases hm : m = 0
    · rw [hn, hm]
    · exact absurd hdata (key n m hn hm)
  · by_cases hm : m = 0
    · exact absurd hdata.symm (key m n hm hn)
    · unfold formatNat at hdata
      rw [if_neg hn, if_neg hm] at hdata
      have hrev := map_digitChar_inj _ _
        (fun d hd => Nat.digits_lt_base (by norm_num) (List.mem_reverse.mp hd))
        (fun d hd => Nat.digits_lt_base (by norm_num) (List.mem_reverse.mp hd)) hdata
      have hdig : Nat.digits 10 n = Nat.digits 10 m := List.reverse_injective hrev
      have := congrArg (Nat.ofDigits 10) hdig
      simpa [Nat.ofDigits_digits] using this

theorem formatInt_no_sep (i : Int) : '|' ∉ (formatInt i).data := by
  intro hc
  cases i with
  | ofNat n => exact (formatNat_no_sep n _ hc).1 rfl
  | negSucc n =>
    unfold formatInt at hc
    rw [String.data_append] at hc
    rcases List.mem_append.mp hc with h | h
    · revert h; decide
    · exact (formatNat_no_sep _ _ h).1 rfl

theorem formatInt_inj (i j : Int) (h : formatInt i = formatInt j) : i = j := by
  have hdata : (formatInt i).data = (formatInt j).data := by rw [h]
  have mixed : ∀ a b : Nat, (formatNat a).data ≠ ("-" ++ formatNat (b + 1)).data := by
    intro a b hab
    have hmem : '-' ∈ (formatNat a).data := by
      rw [hab, String.data_append]
      exact List.mem_append_left _ (by decide)
    exact (formatNat_no_sep a _ hmem).2 rfl
  cases i with
  | ofNat n =>
    cases j with
    | ofNat m =>
      have := formatNat_inj n m (String.ext hdata)
      rw [this]
    | negSucc m => exact absurd hdata (mixed n m)
  | negSucc n =>
    cases j with
    | ofNat m => exact absurd hdata.symm (mixed m n)
    | negSucc m =>
      unfold formatInt at hdata
      simp only [String.data_append, List.append_cancel_left_eq] at hdata
      have := formatNat_inj _ _ (String.ext hdata)
      have hnm : n = m := by omega
      rw [hnm]

theorem append_sep_suffix_eq (x : Char) (a b d₁ d₂ : List Char) (h₁ : x ∉ d₁) (h₂ : x ∉ d₂)
    (h : a ++ x :: d₁ = b ++ x :: d₂) : d₁ = d₂ := by
  have hrev : d₁.reverse ++ x :: a.reverse = d₂.reverse ++ x :: b.reverse := by
    have := congrArg List.reverse h
    simpa using this
  have aux : ∀ (l₁ l₂ r₁ r₂ : List Char), x ∉ l₁ → x ∉ l₂ →
      l₁ ++ x :: r₁ = l₂ ++ x :: r₂ → l₁ = l₂ := by
    intro l₁
    induction l₁ with
    | nil =>
      intro l₂ r₁ r₂ _ hl₂ he
      cases l₂ with
      | nil => rfl
      | cons y l₂ =>
        simp only [List.nil_append, List.cons_append, List.cons.injEq] at he
        exact absurd (he.1 ▸ List.mem_cons_self _ _) hl₂
    | cons y l₁ ih =>
      intro l₂ r₁ r₂ hl₁ hl₂ he
      cases l₂ with
      | nil =>
        simp only [List.nil_append, List.cons_append, List.cons.injEq] at he
        exact absurd (he.1 ▸ List.mem_cons_self _ _) hl₁
      | cons z l₂ =>
        simp only [List.cons_append, List.cons.injEq] at he
        rw [he.1, ih l₂ r₁ r₂ (fun hx => hl₁ (List.mem_cons_of_mem _ hx))
          (fun hx => hl₂ (List.mem_cons_of_mem _ hx)) he.2]
  have := aux d₁.reverse d₂.reverse a.reverse b.reverse (by simpa using h₁) (by simpa using h₂) hrev
  exact List.reverse_injective this

/-- Two window keys that are equal as strings carry the same Unix window start: the text
after the last `|` is the decimal rendering of that number. -/
theorem windowKey_unix_eq (t₁ r₁ m₁ t₂ r₂ m₂ : String) (w₁ w₂ : Time)
    (h : windowKey t₁ r₁ m₁ w₁ = windowKey t₂ r₂ m₂ w₂) : Time.Unix w₁ = Time.Unix w₂ := by
  have hdata := congrArg String.data h
  unfold windowKey at hdata
  simp only [String.data_append] at hdata
  simp only [List.append_assoc, List.singleton_append] at hdata
  have h1 : (t₁.data ++ '|' :: r₁.data ++ '|' :: m₁.data) ++ '|' :: (formatInt (Time.Unix w₁)).data
      = (t₂.data ++ '|' :: r₂.data ++ '|' :: m₂.data) ++ '|' ::
        (formatInt (Time.Unix w₂)).data := by
    simpa [List.append_assoc] using hdata
  have := append_sep_suffix_eq '|' _ _ _ _ (formatInt_no_sep _) (formatInt_no_sep _) h1
  exact formatInt_inj _ _ (String.ext this)

/-! ## Invariants of the window map -/

/-- A property of filed buckets that holds of a freshly created and updated bucket, and is
kept by an update, holds of every bucket of every reachable state. -/
theorem Reachable.buckets {P : String → WindowAggregate → Prop}
    (hnew : ∀ req resp, P (requestKey req) ((newWindowAggregate req).update req resp))
    (hupd : ∀ k b req resp, P k b → P k (b.update req resp))
    {p : MetricsProcessor} (hp : Reachable p) :
    ∀ k b, p.windowAggregates.get k = some b → P k b := by
  induction hp with
  | init => intro k b h; simp [NewMetricsProcessor] at h
  | request p req _ ih => exact ih
  | response p resp _ ih =>
    intro k b h
    cases hreq : p.requestState.get resp.RequestID with
    | none =>
      rw [processResponse_of_not_found p resp hreq] at h
      exact ih k b h
    | some req =>
      rw [processResponse_of_found p resp req hreq] at h
      by_cases hk : k = requestKey req
      · subst hk
        rw [GoMap.get_set_self] at h
        cases h
        unfold bucketBefore
        cases hold : p.windowAggregates.get (requestKey req) with
        | none => exact hnew req resp
        | some old => exact hupd _ old req resp (ih _ old hold)
      · rw [GoMap.get_set_of_ne _ _ hk] at h
        exact ih k b h
  | flush p now sinks order _ _ ih =>
    intro k b h
    exact ih k b (flushCompletedWindows_get_some p now sinks order k b h)
  | cleanup p now requestOrder responseOrder _ _ _ ih => exact ih

theorem windowDuration_eq : WindowDuration = (60000000000 : Int) := by decide

theorem truncate_window (t : Time) :
    Time.Truncate t WindowDuration % WindowDuration = 0 ∧
      Time.Truncate t WindowDuration ≤ t ∧
      t < Time.Truncate t WindowDuration + WindowDuration := by
  rw [windowDuration_eq]
  unfold Time.Truncate
  rw [if_neg (by decide)]
  have ht : ∀ x : Int, (x - x % 60000000000) % 60000000000 = 0 ∧
      x - x % 60000000000 ≤ x ∧ x < x - x % 60000000000 + 60000000000 := by
    intro x
    omega
  exact ht t

theorem Reachable.keyConsistent {p : MetricsProcessor} (hp : Reachable p) :
    ∀ k b, p.windowAggregates.get k = some b → KeyConsistent k b := by
  refine Reachable.buckets (P := KeyConsistent) ?_ ?_ hp
  · intro req resp
    exact ⟨rfl, (truncate_window req.Timestamp).1, rfl⟩
  · intro k b req resp h
    exact h

/-- In a reachable state the bucket found under a request's key starts at the request's
truncated timestamp. -/
theorem Reachable.bucketBefore_windowStart {p : MetricsProcessor} (hp : Reachable p)
    (req : LLMRequest) :
    (bucketBefore p req).WindowStart = Time.Truncate req.Timestamp WindowDuration ∧
      (bucketBefore p req).WindowEnd =
        Time.Truncate req.Timestamp WindowDuration + WindowDuration := by
  unfold bucketBefore
  cases hold : p.windowAggregates.get (requestKey req) with
  | none => exact ⟨rfl, rfl⟩
  | some old =>
    obtain ⟨hkey, hmod, hend⟩ := hp.keyConsistent _ old hold
    have hunix := windowKey_unix_eq _ _ _ _ _ _ _ _ hkey
    have htr := (truncate_window req.Timestamp).1
    have hstart : old.WindowStart = Time.Truncate req.Timestamp WindowDuration := by
      generalize Time.Truncate req.Timestamp WindowDuration = w at hunix htr
      unfold Time.Unix Second at hunix
      rw [windowDuration_eq] at hmod htr
      have hw : ∀ x y c : Int, x / 1000000000 - c = y / 1000000000 - c →
          x % 60000000000 = 0 → y % 60000000000 = 0 → y = x := by
        intro x y c h1 h2 h3
        omega
      exact hw w old.WindowStart unixToInternal hunix htr hmod
    simp only [Option.getD_some]
    exact ⟨hstart, by rw [hend, hstart]⟩

theorem flushProduces_some (sinks : Sinks) (cutoff : Time) (m : GoMap WindowAggregate)
    (key : String) (km : String × LLMMetrics) (h : flushProduces sinks cutoff m key = some km) :
    ∃ b, m.get key = some b ∧ km = (metricsKey (computeMetrics b), computeMetrics b) ∧
      Time.Before b.WindowEnd cutoff = true ∧
      sinks.ProduceJSON (metricsKey (computeMetrics b)) (computeMetrics b) = true := by
  unfold flushProduces at h
  cases hg : m.get key with
  | none => simp [hg] at h
  | some agg =>
    simp only [hg] at h
    by_cases hc : (Time.Before agg.WindowEnd cutoff &&
        sinks.ProduceJSON (metricsKey (computeMetrics agg)) (computeMetrics agg)) = true
    · rw [if_pos hc] at h
      simp only [Bool.and_eq_true] at hc
      exact ⟨agg, rfl, (Option.some.inj h).symm, hc.1, hc.2⟩
    · rw [if_neg hc] at h
      cases h

/-- The sample lists of a bucket have the length `Requests`, and `0 ≤ Errors ≤ Requests`. -/
theorem Reachable.counts {p : MetricsProcessor} (hp : Reachable p) :
    ∀ k b, p.windowAggregates.get k = some b →
      (b.Latencies.length : Int) = b.Requests ∧ (b.PromptTokens.length : Int) = b.Requests ∧
        (b.CompTokens.length : Int) = b.Requests ∧ 0 ≤ b.Errors ∧ b.Errors ≤ b.Requests := by
  refine Reachable.buckets
    (P := fun _ b => (b.Latencies.length : Int) = b.Requests ∧
      (b.PromptTokens.length : Int) = b.Requests ∧
      (b.CompTokens.length : Int) = b.Requests ∧ 0 ≤ b.Errors ∧ b.Errors ≤ b.Requests) ?_ ?_ hp
  · intro req resp
    unfold WindowAggregate.update newWindowAggregate
    cases resp.hasError <;> simp
  · intro k b req resp h
    obtain ⟨h1, h2, h3, h4, h5⟩ := h
    unfold WindowAggregate.update
    cases resp.hasError <;>
      simp only [List.length_append, List.length_singleton, Nat.cast_add, Nat.cast_one,
        if_true, if_false, Bool.false_eq_true] <;>
      omega

/-- C3. In every reachable state, the bucket into which `aggregateEvent` folds a request with
timestamp `t` and a response has `WindowStart ≤ t < WindowEnd`,
`WindowEnd - WindowStart = WindowDuration` (60 s) and `WindowStart` a multiple of
`WindowDuration`; `computeMetrics` copies both bounds into the record; and the resulting
state is the same whatever the timestamp of the response. -/
theorem window_assignment (p : MetricsProcessor) (hp : Reachable p) (req : LLMRequest)
    (resp : LLMResponse) :
    (∃ b, (aggregateEvent p req resp).windowAggregates.get (requestKey req) = some b ∧
      b.Latencies.getLast? = some resp.LatencyMs ∧
      b.WindowStart ≤ req.Timestamp ∧ req.Timestamp < b.WindowEnd ∧
      b.WindowEnd - b.WindowStart = WindowDuration ∧
      b.WindowStart % WindowDuration = 0 ∧
      (computeMetrics b).WindowStart = b.WindowStart ∧
      (computeMetrics b).WindowEnd = b.WindowEnd) ∧
    WindowDuration = 60 * Second ∧
    (∀ ts : Time, aggregateEvent p req { resp with Timestamp := ts } =
      aggregateEvent p req resp) := by
  obtain ⟨hstart, hend⟩ := hp.bucketBefore_windowStart req
  obtain ⟨hmod, hle, hlt⟩ := truncate_window req.Timestamp
  refine ⟨⟨(bucketBefore p req).update req resp, aggregateEvent_get_self p req resp, ?_, ?_, ?_,
    ?_, ?_, rfl, rfl⟩, by decide, fun ts => rfl⟩
  · simp [WindowAggregate.update]
  · show (bucketBefore p req).WindowStart ≤ req.Timestamp
    rw [hstart]; exact hle
  · show req.Timestamp < (bucketBefore p req).WindowEnd
    rw [hend]; exact hlt
  · show (bucketBefore p req).WindowEnd - (bucketBefore p req).WindowStart = WindowDuration
    rw [hend, hstart]; exact add_sub_cancel_left _ _
  · show (bucketBefore p req).WindowStart % WindowDuration = 0
    rw [hstart]; exact hmod

/-- Witness of `window_assignment`: the happy pair folded into the fresh state lands in the
window from 2024-01-01T00:00:00Z to 2024-01-01T00:01:00Z. -/
theorem window_assignment_witness :
    Reachable NewMetricsProcessor ∧
    ∃ b, (aggregateEvent NewMetricsProcessor happyRequest happyResponse).windowAggregates.get
        (requestKey happyRequest) = some b ∧
      b.WindowStart = Time.ofUnix 1704067200 ∧ b.WindowEnd = Time.ofUnix 1704067260 ∧
      b.WindowStart ≤ happyRequest.Timestamp ∧ happyRequest.Timestamp < b.WindowEnd := by
  obtain ⟨⟨b, hb, -, h1, h2, -⟩, -⟩ :=
    window_assignment NewMetricsProcessor Reachable.init happyRequest happyResponse
  refine ⟨Reachable.init, b, hb, ?_, ?_, h1, h2⟩
  · rw [aggregateEvent_get_self] at hb
    cases hb
    decide
  · rw [aggregateEvent_get_self] at hb
    cases hb
    decide

/-- C5. In every state reachable from the fresh processor by handled requests, handled
responses, flush ticks and eviction ticks, every bucket of the window map satisfies
`len(Latencies) = len(PromptTokens) = len(CompTokens) = Requests` and
`0 ≤ Errors ≤ Requests`; hence every record a flush publishes is computed from such a
bucket and has `0 ≤ errors ≤ requests`. -/
theorem bucket_invariant (p : MetricsProcessor) (hp : Reachable p) :
    (∀ k b, p.windowAggregates.get k = some b →
      b.Latencies.length = b.PromptTokens.length ∧
      b.PromptTokens.length = b.CompTokens.length ∧
      (b.CompTokens.length : Int) = b.Requests ∧
      0 ≤ b.Errors ∧ b.Errors ≤ b.Requests) ∧
    (∀ (now : Time) (sinks : Sinks) (order : List String), p.windowAggregates.IsRange order →
      ∀ km ∈ (flushCompletedWindows p now sinks order).produced,
        ∃ k b, p.windowAggregates.get k = some b ∧ km.2 = computeMetrics b ∧
          (b.Latencies.length : Int) = km.2.Requests ∧
          (b.PromptTokens.length : Int) = km.2.Requests ∧
          (b.CompTokens.length : Int) = km.2.Requests ∧
          0 ≤ km.2.Errors ∧ km.2.Errors ≤ km.2.Requests) := by
  constructor
  · intro k b hb
    obtain ⟨h1, h2, h3, h4, h5⟩ := hp.counts k b hb
    refine ⟨?_, ?_, h3, h4, h5⟩ <;> omega
  · intro now sinks order horder km hkm
    unfold flushCompletedWindows at hkm
    rw [flushLoop_produced _ _ _ _ horder.1] at hkm
    simp only [List.nil_append, List.mem_filterMap] at hkm
    obtain ⟨k, -, hk⟩ := hkm
    obtain ⟨b, hb, rfl, -, -⟩ := flushProduces_some _ _ _ _ _ hk
    obtain ⟨h1, h2, h3, h4, h5⟩ := hp.counts k b hb
    exact ⟨k, b, hb, rfl, h1, h2, h3, h4, h5⟩

/-- Witness of `bucket_invariant`: the state after the happy pair is reachable, and its one
bucket has one sample in each list, `Requests = 1` and `Errors = 0`. -/
theorem bucket_invariant_witness :
    Reachable (processResponse (processRequest NewMetricsProcessor happyRequest)
      happyResponse) ∧
    ∃ b, (processResponse (processRequest NewMetricsProcessor happyRequest)
        happyResponse).windowAggregates.get (requestKey happyRequest) = some b ∧
      b.Latencies.length = b.PromptTokens.length ∧
      b.PromptTokens.length = b.CompTokens.length ∧
      (b.CompTokens.length : Int) = b.Requests ∧ 0 ≤ b.Errors ∧ b.Errors ≤ b.Requests ∧
      b.Requests = 1 := by
  have hr : Reachable (processResponse (processRequest NewMetricsProcessor happyRequest)
      happyResponse) :=
    Reachable.response _ _ (Reachable.request _ _ Reachable.init)
  have hb : (processResponse (processRequest NewMetricsProcessor happyRequest)
      happyResponse).windowAggregates.get (requestKey happyRequest) =
      some ((newWindowAggregate happyRequest).update happyRequest happyResponse) := by
    rw [request_response happyRequest happyResponse rfl, GoMap.get_set_self]
  obtain ⟨h1, h2, h3, h4, h5⟩ := (bucket_invariant _ hr).1 _ _ hb
  exact ⟨hr, _, hb, h1, h2, h3, h4, h5, rfl⟩

/-! ## The percentile index in `float64` arithmetic -/

theorem roundNearestEven_of_lt (a : Nat) (ha : a < 2 ^ 53) : roundNearestEven a = a := by
  have hs : (Nat.log2 a + 1) - 53 = 0 := by
    by_cases h0 : a = 0
    · subst h0; simp
    · have := (Nat.log2_lt h0).mpr ha
      omega
  unfold roundNearestEven
  simp [hs, Nat.mod_one]

/-- What rounding does to a number of more than 53 bits: with `2 ^ s` the weight of the last
kept bit, the result is a multiple of `2 ^ s` at distance at most `2 ^ s / 2`. -/
theorem roundNearestEven_spec (a : Nat) (ha : 2 ^ 53 ≤ a) :
    ∃ s Q r : Nat, a = Q + r ∧ r < 2 ^ s ∧ 2 ^ s ∣ Q ∧
      ((roundNearestEven a = Q + 2 ^ s ∧ 2 ^ s ≤ 2 * r) ∨
        (roundNearestEven a = Q ∧ 2 * r ≤ 2 ^ s)) ∧
      2 ^ s * 2 ^ 52 ≤ a ∧ a < 2 ^ s * 2 ^ 53 := by
  have h0 : a ≠ 0 := by
    intro h
    rw [h] at ha
    exact absurd ha (by decide)
  have hlog : 53 ≤ Nat.log2 a := (Nat.le_log2 h0).mpr ha
  have hlo := Nat.log2_self_le h0
  have hhi := @Nat.lt_log2_self a
  obtain ⟨s, hs⟩ : ∃ s, Nat.log2 a = s + 53 := ⟨Nat.log2 a - 53, by omega⟩
  have hs' : (Nat.log2 a + 1) - 53 = s + 1 := by omega
  have hpos : 0 < 2 ^ (s + 1) := Nat.pos_pow_of_pos _ (by norm_num)
  refine ⟨s + 1, a / 2 ^ (s + 1) * 2 ^ (s + 1), a % 2 ^ (s + 1), ?_, Nat.mod_lt _ hpos,
    Dvd.intro_left _ rfl, ?_, ?_, ?_⟩
  · rw [Nat.mul_comm]; exact (Nat.div_add_mod a _).symm
  · unfold roundNearestEven
    simp only [hs']
    by_cases hc : 2 ^ (s + 1) < 2 * (a % 2 ^ (s + 1)) ∨
        (2 * (a % 2 ^ (s + 1)) = 2 ^ (s + 1) ∧ a / 2 ^ (s + 1) % 2 = 1)
    · rw [if_pos hc]
      left
      refine ⟨by rw [Nat.add_mul, Nat.one_mul], ?_⟩
      rcases hc with h | h
      · exact Nat.le_of_lt h
      · exact Nat.le_of_eq h.1.symm
    · rw [if_neg hc]
      right
      refine ⟨rfl, ?_⟩
      by_contra hgt
      exact hc (Or.inl (Nat.lt_of_not_le hgt))
  · have : 2 ^ (s + 1) * 2 ^ 52 = 2 ^ (Nat.log2 a) := by
      rw [← Nat.pow_add, hs]
    rw [this]; exact hlo
  · have : 2 ^ (s + 1) * 2 ^ 53 = 2 ^ (Nat.log2 a + 1) := by
      rw [← Nat.pow_add, hs]
    rw [this]; exact hhi

theorem percentileIndex_core (N a P Q r R : Nat) (h1 : a = N * 8556839292003942)
    (h2 : a = Q + r) (h3 : r < P)
    (h4 : (R = Q + P ∧ P ≤ 2 * r) ∨ (R = Q ∧ 2 * r ≤ P)) (h5 : P * 4503599627370496 ≤ a)
    (h6 : N < 281474976710656)
    (hdiv : N / 20 * 19 * 9007199254740992 ≤ R ∨ R + P ≤ N / 20 * 19 * 9007199254740992)
    (h8 : a < P * 9007199254740992) : R / 9007199254740992 = N * 19 / 20 := by
  have hP : P < 2 * N := by omega
  have hR1 : 2 * R ≤ 2 * a + P := by omega
  have hR2 : 2 * a ≤ 2 * R + P := by omega
  have ha : 20 * a + 8 * N = 19 * N * 9007199254740992 := by omega
  clear h2 h3 h4 h5 h1
  by_cases hj : N % 20 = 0
  · have hN : N = 20 * (N / 20) := by omega
    generalize N / 20 = k at hN hdiv
    subst hN
    have hF : 20 * k * 19 / 20 = 19 * k := by omega
    rw [hF]
    have hlow : 19 * k * 9007199254740992 ≤ R := by
      rcases hdiv with h | h
      · omega
      · exfalso
        omega
    have hup : R < (19 * k + 1) * 9007199254740992 := by omega
    omega
  · obtain ⟨F, ρ, hF, hρ1, hρ2, hFN⟩ : ∃ F ρ : Nat, N * 19 / 20 = F ∧ 1 ≤ ρ ∧ ρ ≤ 19 ∧
        19 * N = 20 * F + ρ := ⟨N * 19 / 20, N * 19 % 20, rfl, by omega, by omega, by omega⟩
    rw [hF]
    have ha' : 20 * a + 8 * N = (20 * F + ρ) * 9007199254740992 := by rw [← hFN]; exact ha
    have hlow : F * 9007199254740992 ≤ R := by nlinarith
    have hup : R < (F + 1) * 9007199254740992 := by nlinarith
    omega

/-- The index `int(float64(n-1) * 0.95)`, computed in `float64`, is `⌊(n - 1) * 19 / 20⌋`
for every length up to `2 ^ 48`. -/
theorem percentileIndex_95 (n : Nat) (hn : n ≤ 2 ^ 48) :
    percentileIndex n percentile95 = (n - 1) * 19 / 20 := by
  have hN : n - 1 < 281474976710656 := by
    have : (2 : Nat) ^ 48 = 281474976710656 := by norm_num
    omega
  unfold percentileIndex Float64.toInt Float64.mul Float64.ofNat percentile95
  simp only [Nat.add_zero, Nat.zero_add]
  generalize n - 1 = N at hN
  rw [roundNearestEven_of_lt N (by have : (2 : Nat) ^ 53 = 9007199254740992 := by norm_num
                                   omega)]
  have h53 : (2 : Nat) ^ 53 = 9007199254740992 := by norm_num
  have h52 : (2 : Nat) ^ 52 = 4503599627370496 := by norm_num
  by_cases ha : N * 8556839292003942 < 2 ^ 53
  · rw [roundNearestEven_of_lt _ ha, h53]
    rw [h53] at ha
    omega
  · obtain ⟨s, Q, r, h2, h3, hQ, h4, h5, h8⟩ :=
      roundNearestEven_spec (N * 8556839292003942) (Nat.le_of_not_lt ha)
    rw [h52] at h5
    rw [h53] at h8 ⊢
    have hs : s ≤ 53 := by
      by_contra hgt
      have : 2 ^ 54 ≤ 2 ^ s := Nat.pow_le_pow_right (by norm_num) (by omega)
      have h54 : (2 : Nat) ^ 54 = 18014398509481984 := by norm_num
      rw [h54] at this
      omega
    have hPT : 2 ^ s ∣ N / 20 * 19 * 9007199254740992 := by
      rw [← h53]
      exact Dvd.dvd.mul_left (Nat.pow_dvd_pow 2 hs) _
    have hPR : 2 ^ s ∣ roundNearestEven (N * 8556839292003942) := by
      rcases h4 with h | h
      · rw [h.1]; exact Dvd.dvd.add hQ (dvd_refl _)
      · rw [h.1]; exact hQ
    have hdiv : N / 20 * 19 * 9007199254740992 ≤ roundNearestEven (N * 8556839292003942) ∨
        roundNearestEven (N * 8556839292003942) + 2 ^ s ≤ N / 20 * 19 * 9007199254740992 := by
      by_cases hle : N / 20 * 19 * 9007199254740992 ≤ roundNearestEven (N * 8556839292003942)
      · exact Or.inl hle
      · right
        have hlt := Nat.lt_of_not_le hle
        have hd := Nat.le_of_dvd (Nat.sub_pos_of_lt hlt) (Nat.dvd_sub' hPT hPR)
        omega
    exact percentileIndex_core N _ (2 ^ s) Q r _ rfl h2 h3 h4 h5 hN hdiv h8

/-! ## Rounding to `float64` -/

theorem roundHalfEven_intCast (z : ℤ) : roundHalfEven (z : ℚ) = z := by
  unfold roundHalfEven
  rw [Int.floor_intCast, sub_self, if_pos (by norm_num)]

theorem roundHalfEven_error (x : ℚ) : |(roundHalfEven x : ℚ) - x| ≤ 1 / 2 := by
  have h₁ := Int.floor_le x
  have h₂ := Int.lt_floor_add_one x
  unfold roundHalfEven
  by_cases ha : x - ⌊x⌋ < 1 / 2
  · rw [if_pos ha, abs_le]
    constructor <;> linarith
  · rw [if_neg ha]
    by_cases hb : 1 / 2 < x - ⌊x⌋
    · rw [if_pos hb, abs_le]
      push_cast
      constructor <;> linarith
    · rw [if_neg hb]
      have hhalf : x - ⌊x⌋ = 1 / 2 := le_antisymm (not_lt.mp hb) (not_lt.mp ha)
      by_cases hc : ⌊x⌋ % 2 = 0
      · rw [if_pos hc, abs_le]
        constructor <;> linarith
      · rw [if_neg hc, abs_le]
        push_cast
        constructor <;> linarith

/-- How to read off a rounding: an integer below `x` by less than a half. -/
theorem roundHalfEven_of_lt_half (x : ℚ) (z : ℤ) (h₁ : (z : ℚ) ≤ x) (h₂ : x - z < 1 / 2) :
    roundHalfEven x = z := by
  have hfloor : ⌊x⌋ = z := Int.floor_eq_iff.mpr ⟨h₁, by linarith⟩
  unfold roundHalfEven
  rw [hfloor, if_pos h₂]

/-- How to read off a rounding: a tie above an even integer. -/
theorem roundHalfEven_of_tie_even (x : ℚ) (z : ℤ) (h₁ : x = z + 1 / 2) (h₂ : z % 2 = 0) :
    roundHalfEven x = z := by
  have hfloor : ⌊x⌋ = z := Int.floor_eq_iff.mpr ⟨by linarith, by linarith⟩
  unfold roundHalfEven
  rw [hfloor, if_neg (by rw [h₁]; norm_num), if_neg (by rw [h₁]; norm_num), if_pos h₂]

theorem two_zpow_pos (e : ℤ) : (0 : ℚ) < 2 ^ e := zpow_pos (by norm_num) e

/-- The binary exponent of a rational, from a bracketing by powers of two. -/
theorem log_two_eq (q : ℚ) (L : ℤ) (h₁ : (2 : ℚ) ^ L ≤ |q|) (h₂ : |q| < 2 ^ (L + 1)) :
    Int.log 2 |q| = L := by
  have hpos : 0 < |q| := lt_of_lt_of_le (two_zpow_pos L) h₁
  have hcast : ((2 : ℕ) : ℚ) = 2 := by norm_num
  apply le_antisymm
  · have := (Int.lt_zpow_iff_log_lt (R := ℚ) (b := 2) (by norm_num) hpos).mp
      (by rw [hcast]; exact h₂)
    omega
  · exact (Int.zpow_le_iff_le_log (R := ℚ) (b := 2) (by norm_num) hpos).mp
      (by rw [hcast]; exact h₁)

theorem roundToFloat64_of_log (q : ℚ) (L : ℤ) (h₁ : (2 : ℚ) ^ L ≤ |q|)
    (h₂ : |q| < 2 ^ (L + 1)) :
    roundToFloat64 q = (roundHalfEven (q / 2 ^ (L - 52)) : ℚ) * 2 ^ (L - 52) := by
  have hpos : 0 < |q| := lt_of_lt_of_le (two_zpow_pos L) h₁
  have hq : q ≠ 0 := abs_pos.mp hpos
  unfold roundToFloat64
  rw [if_neg hq, log_two_eq q L h₁ h₂]

/-- The bracketing of a non-zero rational by its own binary exponent. -/
theorem log_two_bounds (q : ℚ) (hq : q ≠ 0) :
    (2 : ℚ) ^ Int.log 2 |q| ≤ |q| ∧ |q| < 2 ^ (Int.log 2 |q| + 1) := by
  have hpos : 0 < |q| := abs_pos.mpr hq
  have hcast : ((2 : ℕ) : ℚ) = 2 := by norm_num
  have h₁ := Int.zpow_log_le_self (R := ℚ) (b := 2) (by norm_num) hpos
  have h₂ := Int.lt_zpow_succ_log_self (R := ℚ) (b := 2) (by norm_num) |q|
  rw [hcast] at h₁ h₂
  exact ⟨h₁, h₂⟩

/-- Rounding moves a value by at most half a unit in the last place: a relative error of at
most `2 ^ (-53)`. -/
theorem roundToFloat64_error (q : ℚ) : |roundToFloat64 q - q| ≤ |q| / 2 ^ 53 := by
  by_cases hq : q = 0
  · subst hq
    simp [roundToFloat64]
  · obtain ⟨h₁, -⟩ := log_two_bounds q hq
    unfold roundToFloat64
    rw [if_neg hq]
    generalize Int.log 2 |q| = L at h₁
    have hu : (0 : ℚ) < 2 ^ (L - 52) := two_zpow_pos _
    have herr := roundHalfEven_error (q / 2 ^ (L - 52))
    have hsplit : (2 : ℚ) ^ L = 2 ^ (L - 52) * 2 ^ 52 := by
      rw [zpow_sub₀ (by norm_num : (2 : ℚ) ≠ 0)]
      norm_num
    have hfact : (roundHalfEven (q / 2 ^ (L - 52)) : ℚ) * 2 ^ (L - 52) - q =
        ((roundHalfEven (q / 2 ^ (L - 52)) : ℚ) - q / 2 ^ (L - 52)) * 2 ^ (L - 52) := by
      field_simp
    rw [hfact, abs_mul, abs_of_pos hu]
    have hstep : |(roundHalfEven (q / 2 ^ (L - 52)) : ℚ) - q / 2 ^ (L - 52)| * 2 ^ (L - 52) ≤
        1 / 2 * 2 ^ (L - 52) := mul_le_mul_of_nonneg_right herr hu.le
    have hbound : (1 : ℚ) / 2 * 2 ^ (L - 52) ≤ |q| / 2 ^ 53 := by
      rw [le_div_iff₀ (by norm_num : (0 : ℚ) < 2 ^ 53)]
      rw [hsplit] at h₁
      have h53 : (2 : ℚ) ^ 53 = 2 * 2 ^ 52 := by norm_num
      rw [h53]
      nlinarith
    exact le_trans hstep hbound

/-- A value whose scaling to 53 bits is an integer is a `float64`: rounding keeps it. -/
theorem roundToFloat64_of_scaled_int (q : ℚ) (z : ℤ)
    (h : q / 2 ^ (Int.log 2 |q| - 52) = z) : roundToFloat64 q = q := by
  by_cases hq : q = 0
  · subst hq
    simp [roundToFloat64]
  · unfold roundToFloat64
    rw [if_neg hq, h, roundHalfEven_intCast, ← h]
    have hu : (2 : ℚ) ^ (Int.log 2 |q| - 52) ≠ 0 := (two_zpow_pos _).ne'
    field_simp

/-- Every integer of magnitude at most `2 ^ 53` is a `float64`. -/
theorem roundToFloat64_intCast (m : ℤ) (hm : |m| ≤ 2 ^ 53) : roundToFloat64 (m : ℚ) = m := by
  by_cases h0 : m = 0
  · subst h0
    simp [roundToFloat64]
  have hq : (m : ℚ) ≠ 0 := by exact_mod_cast h0
  obtain ⟨h₁, h₂⟩ := log_two_bounds (m : ℚ) hq
  have habs : |(m : ℚ)| = ((|m| : ℤ) : ℚ) := by push_cast; rfl
  have hle : |(m : ℚ)| ≤ 2 ^ 53 := by
    rw [habs]; exact_mod_cast hm
  have hge : (1 : ℚ) ≤ |(m : ℚ)| := by
    rw [habs]
    have : (1 : ℤ) ≤ |m| := Int.one_le_abs h0
    exact_mod_cast this
  have hL0 : 0 ≤ Int.log 2 |(m : ℚ)| := by
    have := Int.log_mono_right (b := 2) (by norm_num : (0 : ℚ) < 1) hge
    rwa [Int.log_one_right] at this
  have hL53 : Int.log 2 |(m : ℚ)| ≤ 53 := by
    have := Int.log_mono_right (b := 2) (lt_of_lt_of_le (by norm_num : (0 : ℚ) < 1) hge) hle
    have h53 : Int.log 2 ((2 : ℚ) ^ (53 : ℕ)) = 53 := by
      have h := Int.log_zpow (R := ℚ) (b := 2) (by norm_num) 53
      rw [show (((2 : ℕ) : ℚ)) ^ (53 : ℤ) = (2 : ℚ) ^ (53 : ℕ) by norm_num] at h
      exact h
    rwa [h53] at this
  obtain ⟨L, hL⟩ : ∃ L, Int.log 2 |(m : ℚ)| = L := ⟨_, rfl⟩
  rw [hL] at h₁ hL0 hL53
  by_cases hcase : L ≤ 52
  · obtain ⟨k, hk⟩ := Int.eq_ofNat_of_zero_le (show (0 : ℤ) ≤ 52 - L by omega)
    apply roundToFloat64_of_scaled_int (m : ℚ) (m * 2 ^ k)
    have hexp : L - 52 = -(k : ℤ) := by omega
    rw [hL, hexp, zpow_neg, zpow_natCast, div_inv_eq_mul]
    push_cast
    rfl
  · have hL' : L = 53 := by omega
    subst hL'
    have hm53 : |(m : ℚ)| = 2 ^ 53 := le_antisymm hle (by
      have h : (2 : ℚ) ^ (53 : ℤ) = 2 ^ (53 : ℕ) := by norm_num
      rw [← h]; exact h₁)
    apply roundToFloat64_of_scaled_int (m : ℚ) (m / 2)
    rw [hL]
    have hmz : |m| = 2 ^ 53 := by
      rw [habs] at hm53
      exact_mod_cast hm53
    rcases abs_eq (by norm_num : (0 : ℤ) ≤ 2 ^ 53) |>.mp hmz with h | h
    · rw [h]; norm_num
    · rw [h]; norm_num

/-- How to read off a rounding: an integer below `x` by more than a half. -/
theorem roundHalfEven_of_gt_half (x : ℚ) (z : ℤ) (h₁ : 1 / 2 < x - z) (h₂ : x < z + 1) :
    roundHalfEven x = z + 1 := by
  have hfloor : ⌊x⌋ = z := Int.floor_eq_iff.mpr ⟨by linarith, h₂⟩
  unfold roundHalfEven
  rw [hfloor, if_neg (by linarith), if_pos h₁]

/-- How to read off a rounding: a tie above an odd integer. -/
theorem roundHalfEven_of_tie_odd (x : ℚ) (z : ℤ) (h₁ : x = z + 1 / 2) (h₂ : z % 2 = 1) :
    roundHalfEven x = z + 1 := by
  have hfloor : ⌊x⌋ = z := Int.floor_eq_iff.mpr ⟨by linarith, by linarith⟩
  unfold roundHalfEven
  rw [hfloor, if_neg (by rw [h₁]; norm_num), if_neg (by rw [h₁]; norm_num),
    if_neg (by omega)]

/-- On the natural numbers the two descriptions of the rounding agree: `roundNearestEven`, in
integer arithmetic, and `roundToFloat64`, on the rationals. -/
theorem roundToFloat64_eq_roundNearestEven (n : Nat) :
    roundToFloat64 (n : ℚ) = (roundNearestEven n : ℚ) := by
  by_cases hsmall : n < 2 ^ 53
  · rw [roundNearestEven_of_lt n hsmall]
    have h := roundToFloat64_intCast (n : Int) (by
      rw [abs_of_nonneg (Int.ofNat_nonneg n)]
      exact_mod_cast hsmall.le)
    simpa using h
  · have hbig : 2 ^ 53 ≤ n := Nat.le_of_not_lt hsmall
    have h0 : n ≠ 0 := by
      intro h
      rw [h] at hbig
      exact absurd hbig (by decide)
    have hlog : 53 ≤ Nat.log2 n := (Nat.le_log2 h0).mpr hbig
    have hlo := Nat.log2_self_le h0
    have hhi := @Nat.lt_log2_self n
    obtain ⟨s, hs⟩ : ∃ s, Nat.log2 n = s + 52 := ⟨Nat.log2 n - 52, by omega⟩
    have hs' : (Nat.log2 n + 1) - 53 = s := by omega
    rw [hs] at hlo hhi
    have hqlo : (2 : ℚ) ^ ((s + 52 : ℕ) : ℤ) ≤ |(n : ℚ)| := by
      rw [abs_of_nonneg (Nat.cast_nonneg n), zpow_natCast]
      exact_mod_cast hlo
    have hqhi : |(n : ℚ)| < (2 : ℚ) ^ (((s + 52 : ℕ) : ℤ) + 1) := by
      rw [abs_of_nonneg (Nat.cast_nonneg n)]
      have : (((s + 52 : ℕ) : ℤ) + 1) = ((s + 52 + 1 : ℕ) : ℤ) := by push_cast; ring
      rw [this, zpow_natCast]
      exact_mod_cast hhi
    rw [roundToFloat64_of_log _ _ hqlo hqhi]
    have hexp : (((s + 52 : ℕ) : ℤ) - 52) = (s : ℤ) := by push_cast; ring
    rw [hexp, zpow_natCast]
    unfold roundNearestEven
    simp only [hs']
    have hP : 0 < 2 ^ s := Nat.pos_pow_of_pos _ (by norm_num)
    have hdm := Nat.div_add_mod n (2 ^ s)
    have hr := Nat.mod_lt n hP
    generalize n / 2 ^ s = q at hdm ⊢
    generalize n % 2 ^ s = r at hdm hr ⊢
    generalize hPdef : 2 ^ s = P at hdm hr hP ⊢
    have hPq : (0 : ℚ) < (P : ℚ) := by exact_mod_cast hP
    have hPcast : ((2 : ℚ) ^ s) = (P : ℚ) := by rw [← hPdef]; push_cast; rfl
    rw [hPcast]
    have hx : (n : ℚ) / (P : ℚ) = (q : ℚ) + (r : ℚ) / (P : ℚ) := by
      rw [← hdm]
      push_cast
      field_simp
      ring
    rw [hx]
    have hrq : (r : ℚ) < (P : ℚ) := by exact_mod_cast hr
    have hr0 : (0 : ℚ) ≤ (r : ℚ) := Nat.cast_nonneg r
    rcases Nat.lt_trichotomy (2 * r) P with hlt | heq | hgt
    · have hltq : (2 : ℚ) * r < P := by exact_mod_cast hlt
      have hround : roundHalfEven ((q : ℚ) + (r : ℚ) / (P : ℚ)) = (q : ℤ) := by
        apply roundHalfEven_of_lt_half
        · push_cast
          have : 0 ≤ (r : ℚ) / P := div_nonneg hr0 hPq.le
          linarith
        · push_cast
          rw [add_sub_cancel_left, div_lt_iff₀ hPq]
          linarith
      rw [hround, if_neg (by omega)]
      push_cast
      rfl
    · have heqq : (2 : ℚ) * r = P := by exact_mod_cast heq
      have hhalf : (r : ℚ) / (P : ℚ) = 1 / 2 := by
        rw [div_eq_iff hPq.ne']
        linarith
      by_cases hodd : q % 2 = 1
      · have hround : roundHalfEven ((q : ℚ) + (r : ℚ) / (P : ℚ)) = (q : ℤ) + 1 := by
          apply roundHalfEven_of_tie_odd
          · push_cast; rw [hhalf]
          · omega
        rw [hround, if_pos (Or.inr ⟨heq, hodd⟩)]
        push_cast
        rfl
      · have hround : roundHalfEven ((q : ℚ) + (r : ℚ) / (P : ℚ)) = (q : ℤ) := by
          apply roundHalfEven_of_tie_even
          · push_cast; rw [hhalf]
          · omega
        rw [hround, if_neg (by omega)]
        push_cast
        rfl
    · have hgtq : (P : ℚ) < 2 * r := by exact_mod_cast hgt
      have hround : roundHalfEven ((q : ℚ) + (r : ℚ) / (P : ℚ)) = (q : ℤ) + 1 := by
        apply roundHalfEven_of_gt_half
        · push_cast
          rw [add_sub_cancel_left, lt_div_iff₀ hPq]
          linarith
        · push_cast
          have : (r : ℚ) / P < 1 := (div_lt_one hPq).mpr hrq
          linarith
      rw [hround, if_pos (Or.inl hgt)]
      push_cast
      rfl

/-! ## Nearest-rank percentile -/

theorem floor_mul_95 (N : Nat) : ⌊((N : ℕ) : ℚ) * 0.95⌋₊ = N * 19 / 20 := by
  have h : ((N : ℕ) : ℚ) * 0.95 = ((N * 19 : ℕ) : ℚ) / ((20 : ℕ) : ℚ) := by
    push_cast
    norm_num
    ring
  rw [h, Nat.floor_div_eq_div]

/-- On a list of at most `2 ^ 48` values, `calculatePercentile` at `0.95` reads the ascending
sort of the list at index `(n - 1) * 19 / 20` and converts the element to `float64`. -/
theorem calculatePercentile_eq (values sorted : List Int) (hne : values ≠ [])
    (hlen : values.length ≤ 2 ^ 48) (hperm : sorted.Perm values)
    (hsorted : sorted.Sorted (· ≤ ·)) :
    calculatePercentile values percentile95 =
      (sorted.get? ((values.length - 1) * 19 / 20)).map
        (fun (v : Int) => roundToFloat64 (v : ℚ)) := by
  have hs : values.insertionSort (· ≤ ·) = sorted :=
    List.eq_of_perm_of_sorted ((List.perm_insertionSort _ values).trans hperm.symm)
      (List.sorted_insertionSort _ values) hsorted
  have hl : sorted.length = values.length := hperm.length_eq
  have h0 : values.length ≠ 0 := fun h => hne (List.length_eq_zero.mp h)
  unfold calculatePercentile
  rw [if_neg h0]
  simp only [hs, hl]
  rw [percentileIndex_95 _ hlen]

theorem calculatePercentile_ne_none (values : List Int) (hlen : values.length ≤ 2 ^ 48) :
    calculatePercentile values percentile95 ≠ none := by
  by_cases hne : values = []
  · subst hne
    simp [calculatePercentile]
  · rw [calculatePercentile_eq values (values.insertionSort (· ≤ ·)) hne hlen
      (List.perm_insertionSort _ values) (List.sorted_insertionSort _ values)]
    have h0 : values.length ≠ 0 := fun h => hne (List.length_eq_zero.mp h)
    have hidx : (values.length - 1) * 19 / 20 < (values.insertionSort (· ≤ ·)).length := by
      rw [List.length_insertionSort]
      omega
    rw [List.get?_eq_get hidx]
    simp

theorem sample_sorted : ((List.range' 1 100).map (fun i : Nat => (i : Int))).Sorted (· ≤ ·) := by
  have h : (List.range' 1 100).Pairwise (· < ·) := List.pairwise_lt_range' 1 100
  refine List.Pairwise.map _ ?_ h
  intro a b hab
  exact Int.ofNat_le.mpr (Nat.le_of_lt hab)

/-- The conversion `float64(9007199254740993)`: the tie between `2 ^ 53` and `2 ^ 53 + 2`
goes to the even significand. -/
theorem roundToFloat64_above_two_pow_53 :
    roundToFloat64 ((9007199254740993 : Int) : ℚ) = 9007199254740992 := by
  rw [roundToFloat64_of_log _ 53 (by norm_num [abs_of_pos]) (by norm_num [abs_of_pos]),
    roundHalfEven_of_tie_even _ 4503599627370496 (by norm_num) (by decide)]
  norm_num

/-- C4, as the code has it. For every non-empty list of `n` latencies (`n ≤ 2 ^ 48`, more than
a slice can hold), `calculatePercentile(values, 0.95)` is the `float64` conversion of the
element at index `⌊(n - 1) × 0.95⌋` of the ascending sort of the list, and that index is
below `n`: the element itself when its magnitude is at most `2 ^ 53`, and in every case
within a relative error of `2 ^ (-53)` of it.  For the empty list it is 0; for any
arrangement of the sample 1..100 it is 95. -/
theorem calculatePercentile_nearest_rank :
    (∀ values sorted : List Int, values ≠ [] → values.length ≤ 2 ^ 48 →
      sorted.Perm values → sorted.Sorted (· ≤ ·) →
      ∃ h : ⌊((values.length - 1 : ℕ) : ℚ) * 0.95⌋₊ < sorted.length,
        calculatePercentile values percentile95 = some (roundToFloat64
          ((sorted.get ⟨⌊((values.length - 1 : ℕ) : ℚ) * 0.95⌋₊, h⟩ : Int) : ℚ)) ∧
        (|sorted.get ⟨⌊((values.length - 1 : ℕ) : ℚ) * 0.95⌋₊, h⟩| ≤ 2 ^ 53 →
          calculatePercentile values percentile95 =
            some ((sorted.get ⟨⌊((values.length - 1 : ℕ) : ℚ) * 0.95⌋₊, h⟩ : Int) : ℚ)) ∧
        |roundToFloat64
            ((sorted.get ⟨⌊((values.length - 1 : ℕ) : ℚ) * 0.95⌋₊, h⟩ : Int) : ℚ) -
          ((sorted.get ⟨⌊((values.length - 1 : ℕ) : ℚ) * 0.95⌋₊, h⟩ : Int) : ℚ)| ≤
          |((sorted.get ⟨⌊((values.length - 1 : ℕ) : ℚ) * 0.95⌋₊, h⟩ : Int) : ℚ)| / 2 ^ 53) ∧
    calculatePercentile [] percentile95 = some 0 ∧
    (∀ values : List Int, values.Perm ((List.range' 1 100).map (fun i : Nat => (i : Int))) →
      calculatePercentile values percentile95 = some 95) := by
  refine ⟨?_, by simp [calculatePercentile], ?_⟩
  · intro values sorted hne hlen hperm hsorted
    have h0 : values.length ≠ 0 := fun h => hne (List.length_eq_zero.mp h)
    have hl : sorted.length = values.length := hperm.length_eq
    have hidx : ⌊((values.length - 1 : ℕ) : ℚ) * 0.95⌋₊ < sorted.length := by
      rw [floor_mul_95, hl]
      omega
    have hval : calculatePercentile values percentile95 = some (roundToFloat64
        ((sorted.get ⟨⌊((values.length - 1 : ℕ) : ℚ) * 0.95⌋₊, hidx⟩ : Int) : ℚ)) := by
      rw [calculatePercentile_eq values sorted hne hlen hperm hsorted, ← floor_mul_95,
        List.get?_eq_get hidx]
      rfl
    refine ⟨hidx, hval, ?_, roundToFloat64_error _⟩
    intro hsmall
    rw [hval, roundToFloat64_intCast _ hsmall]
  · intro values hperm
    have hlen : values.length = 100 := by
      rw [hperm.length_eq]; simp
    have hne : values ≠ [] := by
      intro h
      rw [h] at hlen
      cases hlen
    rw [calculatePercentile_eq values _ hne (by rw [hlen]; norm_num) hperm.symm sample_sorted,
      hlen]
    have hget : ((List.range' 1 100).map (fun i : Nat => (i : Int))).get? ((100 - 1) * 19 / 20) =
        some 95 := by decide
    rw [hget, Option.map_some']
    have h95 := roundToFloat64_intCast 95 (by norm_num)
    rw [h95]
    norm_num

/-- Witness of `calculatePercentile_nearest_rank`: of the three latencies 30, 10, 20 the
element at index `⌊2 × 0.95⌋ = 1` of the sort 10, 20, 30 is returned. -/
theorem calculatePercentile_nearest_rank_witness :
    ([30, 10, 20] : List Int) ≠ [] ∧ ([30, 10, 20] : List Int).length ≤ 2 ^ 48 ∧
    ([10, 20, 30] : List Int).Perm [30, 10, 20] ∧ ([10, 20, 30] : List Int).Sorted (· ≤ ·) ∧
    calculatePercentile [30, 10, 20] percentile95 = some 20 := by
  have hne : ([30, 10, 20] : List Int) ≠ [] := by decide
  have hlen : ([30, 10, 20] : List Int).length ≤ 2 ^ 48 := by norm_num
  have hperm : ([10, 20, 30] : List Int).Perm [30, 10, 20] := by decide
  have hsorted : ([10, 20, 30] : List Int).Sorted (· ≤ ·) := by decide
  obtain ⟨h, -, hv, -⟩ := calculatePercentile_nearest_rank.1 _ _ hne hlen hperm hsorted
  refine ⟨hne, hlen, hperm, hsorted, ?_⟩
  have hi : ⌊(((([30, 10, 20] : List Int).length - 1 : ℕ) : ℚ)) * 0.95⌋₊ = 1 := by
    rw [floor_mul_95]; rfl
  have hget : ∀ (i : Nat) (hi : i < ([10, 20, 30] : List Int).length), i = 1 →
      ([10, 20, 30] : List Int).get ⟨i, hi⟩ = 20 := by
    intro i hi h1
    subst h1
    rfl
  rw [hget _ h hi] at hv
  rw [hv (by norm_num)]
  norm_num

/-- C4 fails as stated on the single latency `2 ^ 53 + 1`: the element at index 0 of the sort
is 9007199254740993, and `calculatePercentile` returns its `float64` conversion,
9007199254740992. -/
theorem calculatePercentile_counterexample :
    ([9007199254740993] : List Int).Perm [9007199254740993] ∧
    ([9007199254740993] : List Int).Sorted (· ≤ ·) ∧
    ⌊((([9007199254740993] : List Int).length - 1 : ℕ) : ℚ) * 0.95⌋₊ = 0 ∧
    ([9007199254740993] : List Int).get? 0 = some 9007199254740993 ∧
    calculatePercentile [9007199254740993] percentile95 = some 9007199254740992 ∧
    calculatePercentile [9007199254740993] percentile95 ≠
      some ((9007199254740993 : Int) : ℚ) := by
  have hval : calculatePercentile [9007199254740993] percentile95 =
      some 9007199254740992 := by
    rw [calculatePercentile_eq [9007199254740993] [9007199254740993] (by decide)
      (by norm_num) (List.Perm.refl _) (List.sorted_singleton _)]
    show some (roundToFloat64 ((9007199254740993 : Int) : ℚ)) = some 9007199254740992
    rw [roundToFloat64_above_two_pow_53]
  refine ⟨List.Perm.refl _, List.sorted_singleton _, ?_, rfl, hval, ?_⟩
  · rw [floor_mul_95]; rfl
  · rw [hval]
    norm_num

/-! ## Closing windows -/

theorem forall₂_filter_filterMap {α β : Type} (R : α → β → Prop) (g : α → Bool)
    (f : α → Option β) (l : List α)
    (h₁ : ∀ a, g a = true → ∃ b, f a = some b ∧ R a b) (h₂ : ∀ a, g a = false → f a = none) :
    List.Forall₂ R (l.filter g) (l.filterMap f) := by
  induction l with
  | nil => simp
  | cons a l ih =>
    cases hg : g a with
    | false =>
      rw [List.filter_cons_of_neg (by simp [hg]), List.filterMap_cons_none (h₂ a hg)]
      exact ih
    | true =>
      obtain ⟨b, hb, hR⟩ := h₁ a hg
      rw [List.filter_cons_of_pos (by simp [hg]), List.filterMap_cons_some hb]
      exact List.Forall₂.cons hR ih

theorem before_iff (t now : Time) :
    Time.Before t (Time.Add now (-WindowDuration)) = true ↔ t < now - WindowDuration := by
  unfold Time.Before Time.Add
  rw [decide_eq_true_iff, Int.sub_eq_add_neg]

/-- C7. When both sinks accept the record of every bucket of the window map,
`flushCompletedWindows` at `now` removes exactly the buckets with
`WindowEnd < now - WindowDuration`, leaves every bucket with
`WindowEnd ≥ now - WindowDuration` in place unchanged, adds none, and stores and publishes
one record per removed bucket, `computeMetrics` of that bucket, and no other record. -/
theorem flush_close_condition (p : MetricsProcessor) (now : Time) (sinks : Sinks)
    (order : List String)
    (hsinks : ∀ k b, p.windowAggregates.get k = some b →
      sinks.ProduceJSON (metricsKey (computeMetrics b)) (computeMetrics b) = true ∧
        sinks.InsertMetrics (computeMetrics b) = true)
    (horder : p.windowAggregates.IsRange order) :
    (∀ k b, p.windowAggregates.get k = some b → b.WindowEnd < now - WindowDuration →
      (flushCompletedWindows p now sinks order).windows.get k = none) ∧
    (∀ k b, p.windowAggregates.get k = some b → now - WindowDuration ≤ b.WindowEnd →
      (flushCompletedWindows p now sinks order).windows.get k = some b) ∧
    (∀ k, p.windowAggregates.get k = none →
      (flushCompletedWindows p now sinks order).windows.get k = none) ∧
    (∃ due : List String, due.Nodup ∧
      (∀ k, k ∈ due ↔ ∃ b, p.windowAggregates.get k = some b ∧
        b.WindowEnd < now - WindowDuration) ∧
      List.Forall₂ (fun k metrics => ∃ b, p.windowAggregates.get k = some b ∧
        metrics = computeMetrics b) due (flushCompletedWindows p now sinks order).inserted ∧
      (flushCompletedWindows p now sinks order).produced =
        (flushCompletedWindows p now sinks order).inserted.map
          (fun metrics => (metricsKey metrics, metrics))) := by
  have hrem : ∀ k b, p.windowAggregates.get k = some b →
      flushRemoves sinks (Time.Add now (-WindowDuration)) b =
        Time.Before b.WindowEnd (Time.Add now (-WindowDuration)) := by
    intro k b hb
    simp [flushRemoves, (hsinks k b hb).1, (hsinks k b hb).2]
  have hmem : ∀ k b, p.windowAggregates.get k = some b → k ∈ order := by
    intro k b hb
    exact (horder.2 k).mpr (by rw [hb]; rfl)
  refine ⟨?_, ?_, ?_, ?_⟩
  · intro k b hb hdue
    unfold flushCompletedWindows
    rw [flushLoop_windows_get, if_pos (hmem k b hb)]
    simp only [hb, Option.some_bind, hrem k b hb, (before_iff _ _).mpr hdue, if_true]
  · intro k b hb hkeep
    have hnot : ¬ Time.Before b.WindowEnd (Time.Add now (-WindowDuration)) = true := by
      rw [before_iff]; exact not_lt.mpr hkeep
    unfold flushCompletedWindows
    rw [flushLoop_windows_get, if_pos (hmem k b hb)]
    simp [hb, hrem k b hb, hnot]
  · intro k hk
    unfold flushCompletedWindows
    rw [flushLoop_windows_get]
    simp [hk]
  · refine ⟨order.filter (isDue p.windowAggregates (Time.Add now (-WindowDuration))),
      horder.1.filter _, ?_, ?_, ?_⟩
    · intro k
      rw [List.mem_filter]
      constructor
      · rintro ⟨-, hd⟩
        unfold isDue at hd
        cases hg : p.windowAggregates.get k with
        | none => simp [hg] at hd
        | some b =>
          simp only [hg] at hd
          exact ⟨b, rfl, (before_iff _ _).mp hd⟩
      · rintro ⟨b, hb, hd⟩
        refine ⟨hmem k b hb, ?_⟩
        unfold isDue
        simp only [hb]
        exact (before_iff _ _).mpr hd
    · unfold flushCompletedWindows
      rw [flushLoop_inserted _ _ _ _ horder.1, List.nil_append]
      apply forall₂_filter_filterMap
      · intro k hd
        unfold isDue at hd
        cases hg : p.windowAggregates.get k with
        | none => simp [hg] at hd
        | some b =>
          simp only [hg] at hd
          refine ⟨computeMetrics b, ?_, b, rfl, rfl⟩
          simp [flushInserts, hg, hrem k b hg, hd]
      · intro k hd
        unfold isDue at hd
        cases hg : p.windowAggregates.get k with
        | none => simp [flushInserts, hg]
        | some b =>
          simp only [hg] at hd
          simp [flushInserts, hg, hrem k b hg, hd]
    · unfold flushCompletedWindows
      rw [flushLoop_inserted _ _ _ _ horder.1, flushLoop_produced _ _ _ _ horder.1,
        List.nil_append, List.nil_append, List.map_filterMap]
      apply List.filterMap_congr
      intro k _
      cases hg : p.windowAggregates.get k with
      | none => simp [flushInserts, flushProduces, hg]
      | some b =>
        by_cases hd : Time.Before b.WindowEnd (Time.Add now (-WindowDuration)) = true <;>
          simp [flushInserts, flushProduces, hg, hrem k b hg, hd, (hsinks k b hg).1]

/-! ## The happy pair, end to end -/

theorem happyState_windows :
    happyState.windowAggregates = GoMap.empty.set (requestKey happyRequest) happyBucket := by
  unfold happyState
  rw [request_response happyRequest happyResponse rfl]
  have hb : (newWindowAggregate happyRequest).update happyRequest happyResponse = happyBucket := by
    decide
  rw [hb]

theorem happyState_get (k : String) :
    happyState.windowAggregates.get k =
      if k = requestKey happyRequest then some happyBucket else none := by
  rw [happyState_windows]
  by_cases hk : k = requestKey happyRequest
  · rw [if_pos hk, hk, GoMap.get_set_self]
  · rw [if_neg hk, GoMap.get_set_of_ne _ _ hk, GoMap.get_empty]

theorem happyState_isRange : happyState.windowAggregates.IsRange [requestKey happyRequest] := by
  refine ⟨List.nodup_singleton _, fun k => ?_⟩
  rw [happyState_get]
  by_cases hk : k = requestKey happyRequest <;> simp [hk]

theorem calculatePercentile_single : calculatePercentile [500] percentile95 = some 500 := by
  rw [calculatePercentile_eq [500] [500] (by decide) (by norm_num) (List.Perm.refl _)
    (List.sorted_singleton _)]
  show some (roundToFloat64 ((500 : Int) : ℚ)) = some 500
  rw [roundToFloat64_intCast 500 (by norm_num)]
  norm_num

theorem computeMetrics_happyBucket : computeMetrics happyBucket = happyMetrics := by
  unfold computeMetrics happyBucket happyMetrics
  simp only [calculatePercentile_single, sumInts, wrapInt64, List.foldl, List.length_singleton]
  norm_num

theorem happyBucket_due_iff (now : Time) :
    Time.Before happyBucket.WindowEnd (Time.Add now (-WindowDuration)) = true ↔
      Time.ofUnix 1704067320 < now := by
  rw [before_iff, windowDuration_eq]
  have h1 : happyBucket.WindowEnd = (63839664060000000000 : Int) := by decide
  have h2 : Time.ofUnix 1704067320 = (63839664120000000000 : Int) := by decide
  rw [h1, h2]
  have h : ∀ x : Int, (63839664060000000000 < x - 60000000000 ↔ 63839664120000000000 < x) := by
    intro x
    omega
  exact h now

/-- A flush that visits a single key: the bucket there is past the cutoff and both sinks
accept its record. -/
theorem flushCompletedWindows_singleton_flush (p : MetricsProcessor) (now : Time) (sinks : Sinks)
    (key : String) (agg : WindowAggregate) (hget : p.windowAggregates.get key = some agg)
    (hdue : Time.Before agg.WindowEnd (Time.Add now (-WindowDuration)) = true)
    (hproduce : sinks.ProduceJSON (metricsKey (computeMetrics agg)) (computeMetrics agg) = true)
    (hinsert : sinks.InsertMetrics (computeMetrics agg) = true) :
    (flushCompletedWindows p now sinks [key]).produced =
        [(metricsKey (computeMetrics agg), computeMetrics agg)] ∧
      (flushCompletedWindows p now sinks [key]).inserted = [computeMetrics agg] ∧
      (flushCompletedWindows p now sinks [key]).windows = p.windowAggregates.delete key := by
  unfold flushCompletedWindows
  simp only [List.foldl_cons, List.foldl_nil]
  unfold flushStep
  simp [hget, hdue, hproduce, hinsert]

theorem happyState_get_self :
    happyState.windowAggregates.get (requestKey happyRequest) = some happyBucket := by
  rw [happyState_windows, GoMap.get_set_self]

/-- Witness of `flush_close_condition`: flushed one second after 2024-01-01T00:02:00Z with
accepting sinks, the happy state loses its bucket. -/
theorem flush_close_condition_witness :
    happyState.windowAggregates.IsRange [requestKey happyRequest] ∧
    happyState.windowAggregates.get (requestKey happyRequest) = some happyBucket ∧
    happyBucket.WindowEnd < Time.ofUnix 1704067321 - WindowDuration ∧
    (flushCompletedWindows happyState (Time.ofUnix 1704067321) sinksOk
      [requestKey happyRequest]).windows.get (requestKey happyRequest) = none := by
  have hget := happyState_get_self
  have hdue : happyBucket.WindowEnd < Time.ofUnix 1704067321 - WindowDuration := by decide
  exact ⟨happyState_isRange, hget, hdue,
    (flush_close_condition happyState (Time.ofUnix 1704067321) sinksOk
      [requestKey happyRequest] (fun _ _ _ => ⟨rfl, rfl⟩) happyState_isRange).1
      _ _ hget hdue⟩

/-! ## Sink failures -/

theorem flushInserts_some (sinks : Sinks) (cutoff : Time) (m : GoMap WindowAggregate)
    (key : String) (metrics : LLMMetrics) (h : flushInserts sinks cutoff m key = some metrics) :
    ∃ b, m.get key = some b ∧ metrics = computeMetrics b ∧
      flushRemoves sinks cutoff b = true := by
  unfold flushInserts at h
  cases hg : m.get key with
  | none => simp [hg] at h
  | some agg =>
    simp only [hg] at h
    by_cases hc : flushRemoves sinks cutoff agg = true
    · rw [if_pos hc] at h
      exact ⟨agg, rfl, (Option.some.inj h).symm, hc⟩
    · rw [if_neg hc] at h
      cases h

theorem flushRemoves_iff (sinks : Sinks) (now : Time) (b : WindowAggregate) :
    flushRemoves sinks (Time.Add now (-WindowDuration)) b = true ↔
      b.WindowEnd < now - WindowDuration ∧
        sinks.ProduceJSON (metricsKey (computeMetrics b)) (computeMetrics b) = true ∧
        sinks.InsertMetrics (computeMetrics b) = true := by
  unfold flushRemoves
  rw [Bool.and_eq_true, Bool.and_eq_true, before_iff]

/-- C8. With the two sinks as oracles per record, after `flushCompletedWindows` a bucket of the
window map has been removed exactly when it was due (`WindowEnd < now - WindowDuration`), the
stream publish succeeded and the store upsert succeeded; otherwise it is still in the map,
unchanged; no bucket is added; the outcome for a bucket is the same under any other oracle
that answers alike on that bucket's record; and whatever the other buckets meet, the record
of a due bucket is published exactly when the stream accepts it and stored exactly when both
sinks accept it. -/
theorem flush_sink_failure (p : MetricsProcessor) (now : Time) (sinks : Sinks)
    (order : List String) (horder : p.windowAggregates.IsRange order) :
    (∀ k b, p.windowAggregates.get k = some b →
      ((flushCompletedWindows p now sinks order).windows.get k = none ↔
        b.WindowEnd < now - WindowDuration ∧
          sinks.ProduceJSON (metricsKey (computeMetrics b)) (computeMetrics b) = true ∧
          sinks.InsertMetrics (computeMetrics b) = true) ∧
      ((flushCompletedWindows p now sinks order).windows.get k = some b ↔
        ¬ (b.WindowEnd < now - WindowDuration ∧
          sinks.ProduceJSON (metricsKey (computeMetrics b)) (computeMetrics b) = true ∧
          sinks.InsertMetrics (computeMetrics b) = true))) ∧
    (∀ k, p.windowAggregates.get k = none →
      (flushCompletedWindows p now sinks order).windows.get k = none) ∧
    (∀ (other : Sinks) k b, p.windowAggregates.get k = some b →
      other.ProduceJSON (metricsKey (computeMetrics b)) (computeMetrics b) =
        sinks.ProduceJSON (metricsKey (computeMetrics b)) (computeMetrics b) →
      other.InsertMetrics (computeMetrics b) = sinks.InsertMetrics (computeMetrics b) →
      (flushCompletedWindows p now other order).windows.get k =
        (flushCompletedWindows p now sinks order).windows.get k) ∧
    (∀ k b, p.windowAggregates.get k = some b → b.WindowEnd < now - WindowDuration →
      ((metricsKey (computeMetrics b), computeMetrics b) ∈
          (flushCompletedWindows p now sinks order).produced ↔
        sinks.ProduceJSON (metricsKey (computeMetrics b)) (computeMetrics b) = true) ∧
      (computeMetrics b ∈ (flushCompletedWindows p now sinks order).inserted ↔
        sinks.ProduceJSON (metricsKey (computeMetrics b)) (computeMetrics b) = true ∧
          sinks.InsertMetrics (computeMetrics b) = true)) := by
  have hmem : ∀ k b, p.windowAggregates.get k = some b → k ∈ order := by
    intro k b hb
    exact (horder.2 k).mpr (by rw [hb]; rfl)
  have hwin : ∀ (s : Sinks) k b, p.windowAggregates.get k = some b →
      (flushCompletedWindows p now s order).windows.get k =
        if flushRemoves s (Time.Add now (-WindowDuration)) b = true then none else some b := by
    intro s k b hb
    unfold flushCompletedWindows
    rw [flushLoop_windows_get, if_pos (hmem k b hb)]
    simp only [hb, Option.some_bind]
  refine ⟨?_, ?_, ?_, ?_⟩
  · intro k b hb
    rw [hwin sinks k b hb, ← flushRemoves_iff]
    by_cases hr : flushRemoves sinks (Time.Add now (-WindowDuration)) b = true <;> simp [hr]
  · intro k hk
    unfold flushCompletedWindows
    rw [flushLoop_windows_get]
    simp [hk]
  · intro other k b hb hp hi
    rw [hwin sinks k b hb, hwin other k b hb]
    unfold flushRemoves
    rw [hp, hi]
  · intro k b hb hdue
    have hbefore := (before_iff b.WindowEnd now).mpr hdue
    unfold flushCompletedWindows
    rw [flushLoop_produced _ _ _ _ horder.1, flushLoop_inserted _ _ _ _ horder.1]
    simp only [List.nil_append, List.mem_filterMap]
    constructor
    · constructor
      · rintro ⟨k', -, hk'⟩
        obtain ⟨b', -, heq, -, hok⟩ := flushProduces_some _ _ _ _ _ hk'
        have h2 : computeMetrics b = computeMetrics b' := congrArg Prod.snd heq
        rw [h2]
        exact hok
      · intro hok
        refine ⟨k, hmem k b hb, ?_⟩
        simp [flushProduces, hb, hbefore, hok]
    · constructor
      · rintro ⟨k', -, hk'⟩
        obtain ⟨b', -, heq, hrem⟩ := flushInserts_some _ _ _ _ _ hk'
        rw [heq]
        exact ((flushRemoves_iff _ _ _).mp hrem).2
      · intro hok
        refine ⟨k, hmem k b hb, ?_⟩
        have hrem := (flushRemoves_iff sinks now b).mpr ⟨hdue, hok⟩
        simp [flushInserts, hb, hrem]

/-- Witness of `flush_sink_failure`: with the store rejecting, the due bucket of the happy
state is still in the window map after the flush. -/
theorem flush_sink_failure_witness :
    happyState.windowAggregates.IsRange [requestKey happyRequest] ∧
    happyState.windowAggregates.get (requestKey happyRequest) = some happyBucket ∧
    (flushCompletedWindows happyState (Time.ofUnix 1704067321) sinksStoreDown
      [requestKey happyRequest]).windows.get (requestKey happyRequest) = some happyBucket := by
  refine ⟨happyState_isRange, happyState_get_self, ?_⟩
  refine ((flush_sink_failure happyState (Time.ofUnix 1704067321) sinksStoreDown
    [requestKey happyRequest] happyState_isRange).1 _ _ happyState_get_self).2.mpr ?_
  rintro ⟨-, -, h⟩
  cases h

/-! ## Validation of responses -/

/-- C11. `LLMResponse.Validate` returns `ErrMissingRequestID` if `RequestID` is empty,
otherwise `ErrMissingTimestamp` if `Timestamp` is the zero time, otherwise `nil`; it returns
no other error, and `LatencyMs`, `CompletionTokens`, `FinishReason` and `Error` do not affect
the result, so that a response carrying an error string is valid like any other. -/
theorem LLMResponse.validate_response_spec (r : LLMResponse) :
    (r.Validate = some ModelError.ErrMissingRequestID ↔ r.RequestID = "") ∧
    (r.Validate = some ModelError.ErrMissingTimestamp ↔ r.RequestID ≠ "" ∧ r.Timestamp = 0) ∧
    (r.Validate = none ↔ r.RequestID ≠ "" ∧ r.Timestamp ≠ 0) ∧
    r.Validate ≠ some ModelError.ErrMissingTenantID ∧
    r.Validate ≠ some ModelError.ErrMissingRoute ∧
    r.Validate ≠ some ModelError.ErrMissingModel ∧
    (∀ (latencyMs completionTokens : Int) (finishReason : String) (error : Option String),
      LLMResponse.Validate
        { r with LatencyMs := latencyMs, CompletionTokens := completionTokens,
                 FinishReason := finishReason, Error := error } = r.Validate) := by
  unfold LLMResponse.Validate Time.IsZero
  by_cases h1 : r.RequestID = "" <;> by_cases h2 : r.Timestamp = 0 <;> simp [h1, h2]

/-! ## Eviction -/

theorem evictLoop_get {V : Type} (old : V → Bool) (step : GoMap V → String → GoMap V)
    (hstep : ∀ m id k, (step m id).get k =
      if k = id then (m.get id).bind fun v => if old v then none else some v else m.get k)
    (order : List String) (m : GoMap V) (k : String) :
    (order.foldl step m).get k =
      if k ∈ order then (m.get k).bind fun v => if old v then none else some v
      else m.get k := by
  induction order generalizing m with
  | nil => simp
  | cons id rest ih =>
    rw [List.foldl_cons, ih, hstep]
    by_cases hk : k = id
    · subst hk
      cases hg : m.get k with
      | none => simp
      | some v => by_cases ho : old v = true <;> simp [ho]
    · simp [hk]

theorem evictRequest_get (cutoff : Time) (m : GoMap LLMRequest) (id k : String) :
    (evictRequest cutoff m id).get k =
      if k = id then
        (m.get id).bind fun req => if Time.Before req.Timestamp cutoff then none else some req
      else m.get k := by
  unfold evictRequest
  by_cases hk : k = id
  · subst hk
    cases hg : m.get k with
    | none => simp [hg]
    | some req => by_cases hb : Time.Before req.Timestamp cutoff = true <;> simp [hg, hb]
  · cases hg : m.get id with
    | none => simp [hk]
    | some req =>
      by_cases hb : Time.Before req.Timestamp cutoff = true <;>
        simp [hk, hb, GoMap.get_delete_of_ne]

theorem evictResponse_get (cutoff : Time) (m : GoMap LLMResponse) (id k : String) :
    (evictResponse cutoff m id).get k =
      if k = id then
        (m.get id).bind fun resp => if Time.Before resp.Timestamp cutoff then none else some resp
      else m.get k := by
  unfold evictResponse
  by_cases hk : k = id
  · subst hk
    cases hg : m.get k with
    | none => simp [hg]
    | some resp => by_cases hb : Time.Before resp.Timestamp cutoff = true <;> simp [hg, hb]
  · cases hg : m.get id with
    | none => simp [hk]
    | some resp =>
      by_cases hb : Time.Before resp.Timestamp cutoff = true <;>
        simp [hk, hb, GoMap.get_delete_of_ne]

theorem before_retention_iff (t now : Time) :
    Time.Before t (Time.Add now (-StateRetentionDuration)) = true ↔
      t < now - StateRetentionDuration := by
  unfold Time.Before Time.Add
  rw [decide_eq_true_iff, Int.sub_eq_add_neg]

@[simp] theorem cleanupState_windowAggregates (p : MetricsProcessor) (now : Time)
    (requestOrder responseOrder : List String) :
    (cleanupState p now requestOrder responseOrder).windowAggregates = p.windowAggregates := rfl

theorem cleanupState_requestState_get (p : MetricsProcessor) (now : Time)
    (requestOrder responseOrder : List String) (id : String) (req : LLMRequest)
    (hin : id ∈ requestOrder) (hget : p.requestState.get id = some req) :
    (cleanupState p now requestOrder responseOrder).requestState.get id =
      if req.Timestamp < now - StateRetentionDuration then none else some req := by
  show (requestOrder.foldl (evictRequest (Time.Add now (-StateRetentionDuration)))
    p.requestState).get id = _
  rw [evictLoop_get (fun r : LLMRequest =>
    Time.Before r.Timestamp (Time.Add now (-StateRetentionDuration))) _
    (evictRequest_get _), if_pos hin, hget, Option.some_bind]
  by_cases hb : req.Timestamp < now - StateRetentionDuration
  · rw [if_pos hb, if_pos ((before_retention_iff _ _).mpr hb)]
  · rw [if_neg hb, if_neg (fun h => hb ((before_retention_iff _ _).mp h))]

theorem cleanupState_responseState_get (p : MetricsProcessor) (now : Time)
    (requestOrder responseOrder : List String) (id : String) (resp : LLMResponse)
    (hin : id ∈ responseOrder) (hget : p.responseState.get id = some resp) :
    (cleanupState p now requestOrder responseOrder).responseState.get id =
      if resp.Timestamp < now - StateRetentionDuration then none else some resp := by
  show (responseOrder.foldl (evictResponse (Time.Add now (-StateRetentionDuration)))
    p.responseState).get id = _
  rw [evictLoop_get (fun r : LLMResponse =>
    Time.Before r.Timestamp (Time.Add now (-StateRetentionDuration))) _
    (evictResponse_get _), if_pos hin, hget, Option.some_bind]
  by_cases hb : resp.Timestamp < now - StateRetentionDuration
  · rw [if_pos hb, if_pos ((before_retention_iff _ _).mpr hb)]
  · rw [if_neg hb, if_neg (fun h => hb ((before_retention_iff _ _).mp h))]

theorem cleanupState_requestState_none (p : MetricsProcessor) (now : Time)
    (requestOrder responseOrder : List String) (id : String)
    (hget : p.requestState.get id = none) :
    (cleanupState p now requestOrder responseOrder).requestState.get id = none := by
  show (requestOrder.foldl (evictRequest (Time.Add now (-StateRetentionDuration)))
    p.requestState).get id = _
  rw [evictLoop_get (fun r : LLMRequest =>
    Time.Before r.Timestamp (Time.Add now (-StateRetentionDuration))) _
    (evictRequest_get _), hget]
  simp

theorem cleanupState_responseState_none (p : MetricsProcessor) (now : Time)
    (requestOrder responseOrder : List String) (id : String)
    (hget : p.responseState.get id = none) :
    (cleanupState p now requestOrder responseOrder).responseState.get id = none := by
  show (responseOrder.foldl (evictResponse (Time.Add now (-StateRetentionDuration)))
    p.responseState).get id = _
  rw [evictLoop_get (fun r : LLMResponse =>
    Time.Before r.Timestamp (Time.Add now (-StateRetentionDuration))) _
    (evictResponse_get _), hget]
  simp

/-- C12. One eviction pass of `cleanupState` at `now`, with cutoff
`now - StateRetentionDuration`, removes from the request map and from the response map
exactly the entries whose `Timestamp` is strictly before the cutoff: such an entry is gone,
an entry with `Timestamp ≥ cutoff` is kept with its value, an absent key stays absent, and the
window map is untouched.  The cutoff ranges over all instants as `now` does. -/
theorem cleanupState_evicts (p : MetricsProcessor) (now : Time)
    (requestOrder responseOrder : List String)
    (hrequests : p.requestState.IsRange requestOrder)
    (hresponses : p.responseState.IsRange responseOrder) :
    (∀ id req, p.requestState.get id = some req →
      (req.Timestamp < now - StateRetentionDuration →
        (cleanupState p now requestOrder responseOrder).requestState.get id = none) ∧
      (now - StateRetentionDuration ≤ req.Timestamp →
        (cleanupState p now requestOrder responseOrder).requestState.get id = some req)) ∧
    (∀ id, p.requestState.get id = none →
      (cleanupState p now requestOrder responseOrder).requestState.get id = none) ∧
    (∀ id resp, p.responseState.get id = some resp →
      (resp.Timestamp < now - StateRetentionDuration →
        (cleanupState p now requestOrder responseOrder).responseState.get id = none) ∧
      (now - StateRetentionDuration ≤ resp.Timestamp →
        (cleanupState p now requestOrder responseOrder).responseState.get id = some resp)) ∧
    (∀ id, p.responseState.get id = none →
      (cleanupState p now requestOrder responseOrder).responseState.get id = none) ∧
    (cleanupState p now requestOrder responseOrder).windowAggregates = p.windowAggregates ∧
    (∀ cutoff : Time, ∃ tick : Time, tick - StateRetentionDuration = cutoff) := by
  refine ⟨?_, fun id h => cleanupState_requestState_none p now _ _ id h, ?_,
    fun id h => cleanupState_responseState_none p now _ _ id h, rfl,
    fun cutoff => ⟨cutoff + StateRetentionDuration, add_sub_cancel_right _ _⟩⟩
  · intro id req hget
    have hin : id ∈ requestOrder := (hrequests.2 id).mpr (by rw [hget]; rfl)
    rw [cleanupState_requestState_get p now _ _ id req hin hget]
    exact ⟨fun h => if_pos h, fun h => if_neg (not_lt.mpr h)⟩
  · intro id resp hget
    have hin : id ∈ responseOrder := (hresponses.2 id).mpr (by rw [hget]; rfl)
    rw [cleanupState_responseState_get p now _ _ id resp hin hget]
    exact ⟨fun h => if_pos h, fun h => if_neg (not_lt.mpr h)⟩

theorem processResponse_responseState (p : MetricsProcessor) (resp : LLMResponse) :
    (processResponse p resp).responseState = p.responseState.set resp.RequestID resp := by
  unfold processResponse
  cases h : p.requestState.get resp.RequestID <;> simp [h]

theorem GoMap.isRange_singleton {V : Type} (k : String) (v : V) :
    (GoMap.empty.set k v).IsRange [k] := by
  refine ⟨List.nodup_singleton _, fun j => ?_⟩
  by_cases hj : j = k
  · subst hj; simp
  · rw [GoMap.get_set_of_ne _ _ hj, GoMap.get_empty]
    simp [hj]

theorem happyState_requestState :
    happyState.requestState = GoMap.empty.set "r1" happyRequest := by
  unfold happyState
  rw [processResponse_requestState, processRequest_requestState]
  rfl

theorem happyState_responseState :
    happyState.responseState = GoMap.empty.set "r1" happyResponse := by
  unfold happyState
  rw [processResponse_responseState, processRequest_responseState]
  rfl

/-- Witness of `cleanupState_evicts`: five minutes and one second after the happy request,
the request is evicted and the response, one second younger, is kept. -/
theorem cleanupState_evicts_witness :
    happyState.requestState.IsRange ["r1"] ∧ happyState.responseState.IsRange ["r1"] ∧
    happyState.requestState.get "r1" = some happyRequest ∧
    happyState.responseState.get "r1" = some happyResponse ∧
    (cleanupState happyState (Time.ofUnix 1704067518) ["r1"] ["r1"]).requestState.get "r1" =
      none ∧
    (cleanupState happyState (Time.ofUnix 1704067518) ["r1"] ["r1"]).responseState.get "r1" =
      some happyResponse := by
  have hreq : happyState.requestState.IsRange ["r1"] := by
    rw [happyState_requestState]; exact GoMap.isRange_singleton _ _
  have hresp : happyState.responseState.IsRange ["r1"] := by
    rw [happyState_responseState]; exact GoMap.isRange_singleton _ _
  have hgreq : happyState.requestState.get "r1" = some happyRequest := by
    rw [happyState_requestState, GoMap.get_set_self]
  have hgresp : happyState.responseState.get "r1" = some happyResponse := by
    rw [happyState_responseState, GoMap.get_set_self]
  have h := cleanupState_evicts happyState (Time.ofUnix 1704067518) ["r1"] ["r1"] hreq hresp
  exact ⟨hreq, hresp, hgreq, hgresp, (h.1 _ _ hgreq).1 (by decide),
    (h.2.2.1 _ _ hgresp).2 (by decide)⟩

/-! ## No empty windows -/

theorem Reachable.requests_pos {p : MetricsProcessor} (hp : Reachable p) :
    ∀ k b, p.windowAggregates.get k = some b → 1 ≤ b.Requests := by
  refine Reachable.buckets (P := fun _ b => 1 ≤ b.Requests) ?_ ?_ hp
  · intro req resp
    show (1 : Int) ≤ 0 + 1
    decide
  · intro k b req resp h
    show 1 ≤ b.Requests + 1
    omega

theorem happyState_reachable : Reachable happyState :=
  Reachable.response _ _ (Reachable.request _ _ Reachable.init)

/-- C14. In any state, handling a response whose `request_id` is not in the request map leaves
the window map unchanged; in every reachable state every bucket of the window map has `Requests ≥ 1`;
and every record `flushCompletedWindows` publishes or stores is computed from such a bucket,
so it never has `requests = 0`. -/
theorem no_empty_windows (p : MetricsProcessor) (hp : Reachable p) :
    (∀ (q : MetricsProcessor) (resp : LLMResponse), q.requestState.get resp.RequestID = none →
      (processResponse q resp).windowAggregates = q.windowAggregates) ∧
    (∀ k b, p.windowAggregates.get k = some b → 1 ≤ b.Requests) ∧
    (∀ (now : Time) (sinks : Sinks) (order : List String), p.windowAggregates.IsRange order →
      (∀ km ∈ (flushCompletedWindows p now sinks order).produced,
        1 ≤ km.2.Requests ∧ km.2.Requests ≠ 0) ∧
      (∀ metrics ∈ (flushCompletedWindows p now sinks order).inserted,
        1 ≤ metrics.Requests ∧ metrics.Requests ≠ 0)) := by
  refine ⟨fun q resp h => processResponse_of_not_found q resp h, hp.requests_pos, ?_⟩
  intro now sinks order horder
  constructor
  · intro km hkm
    unfold flushCompletedWindows at hkm
    rw [flushLoop_produced _ _ _ _ horder.1] at hkm
    simp only [List.nil_append, List.mem_filterMap] at hkm
    obtain ⟨k, -, hk⟩ := hkm
    obtain ⟨b, hb, rfl, -, -⟩ := flushProduces_some _ _ _ _ _ hk
    have h1 : 1 ≤ b.Requests := hp.requests_pos k b hb
    have h2 : (computeMetrics b).Requests = b.Requests := rfl
    show 1 ≤ (computeMetrics b).Requests ∧ (computeMetrics b).Requests ≠ 0
    rw [h2]
    omega
  · intro metrics hm
    unfold flushCompletedWindows at hm
    rw [flushLoop_inserted _ _ _ _ horder.1] at hm
    simp only [List.nil_append, List.mem_filterMap] at hm
    obtain ⟨k, -, hk⟩ := hm
    obtain ⟨b, hb, rfl, -⟩ := flushInserts_some _ _ _ _ _ hk
    have h1 : 1 ≤ b.Requests := hp.requests_pos k b hb
    have h2 : (computeMetrics b).Requests = b.Requests := rfl
    rw [h2]
    omega

/-- Witness of `no_empty_windows`: the happy state is reachable and its bucket has one
request; an orphan response with another id leaves its window map as it is. -/
theorem no_empty_windows_witness :
    Reachable happyState ∧
    happyState.windowAggregates.get (requestKey happyRequest) = some happyBucket ∧
    1 ≤ happyBucket.Requests ∧
    happyState.requestState.get "r2" = none ∧
    (processResponse happyState { happyResponse with RequestID := "r2" }).windowAggregates =
      happyState.windowAggregates := by
  have h := no_empty_windows happyState happyState_reachable
  have hnone : happyState.requestState.get "r2" = none := by
    rw [happyState_requestState, GoMap.get_set_of_ne _ _ (by decide), GoMap.get_empty]
  exact ⟨happyState_reachable, happyState_get_self, h.2.1 _ _ happyState_get_self, hnone,
    h.1 happyState { happyResponse with RequestID := "r2" } hnone⟩

/-! ## Sums, averages and cost -/

theorem wrapInt64_add_wrapInt64 (a x : Int) : wrapInt64 (wrapInt64 a + x) = wrapInt64 (a + x) := by
  unfold wrapInt64
  have h : ((2 : Int) ^ 63 = 9223372036854775808) ∧ ((2 : Int) ^ 64 = 18446744073709551616) := by
    constructor <;> norm_num
  rw [h.1, h.2]
  omega

theorem wrapInt64_of_fits (x : Int) (h₁ : -2 ^ 63 ≤ x) (h₂ : x < 2 ^ 63) : wrapInt64 x = x := by
  unfold wrapInt64
  have h : ((2 : Int) ^ 63 = 9223372036854775808) ∧ ((2 : Int) ^ 64 = 18446744073709551616) := by
    constructor <;> norm_num
  rw [h.1] at h₁ h₂
  rw [h.1, h.2]
  omega

theorem foldl_wrapInt64 (xs : List Int) (a : Int) :
    xs.foldl (fun sum l => wrapInt64 (sum + l)) (wrapInt64 a) = wrapInt64 (a + xs.sum) := by
  induction xs generalizing a with
  | nil => simp
  | cons x xs ih =>
    rw [List.foldl_cons, wrapInt64_add_wrapInt64, ih, List.sum_cons, add_assoc]

/-- The summing loop returns the exact sum reduced modulo `2 ^ 64` into the `int` range. -/
theorem sumInts_eq (xs : List Int) : sumInts xs = wrapInt64 xs.sum := by
  unfold sumInts
  have h0 : (0 : Int) = wrapInt64 0 := by decide
  rw [h0, foldl_wrapInt64, zero_add]

/-- Two pairs handled in turn from the fresh state: the window map holds the bucket of the
first pair, and then the second pair folded under its own key. -/
theorem two_pairs_windows (req₁ req₂ : LLMRequest) (resp₁ resp₂ : LLMResponse)
    (h₁ : resp₁.RequestID = req₁.RequestID) (h₂ : resp₂.RequestID = req₂.RequestID) :
    (processResponse (processRequest (processResponse (processRequest NewMetricsProcessor req₁)
        resp₁) req₂) resp₂).windowAggregates =
      (GoMap.empty.set (requestKey req₁) ((newWindowAggregate req₁).update req₁ resp₁)).set
        (requestKey req₂)
        ((((GoMap.empty.set (requestKey req₁) ((newWindowAggregate req₁).update req₁ resp₁)).get
          (requestKey req₂)).getD (newWindowAggregate req₂)).update req₂ resp₂) := by
  have hfound : (processRequest (processResponse (processRequest NewMetricsProcessor req₁)
      resp₁) req₂).requestState.get resp₂.RequestID = some req₂ := by
    rw [processRequest_requestState, h₂, GoMap.get_set_self]
  rw [processResponse_of_found _ _ _ hfound]
  unfold bucketBefore
  rw [processRequest_windowAggregates, request_response req₁ resp₁ h₁]

theorem computeMetrics_avgLatency (b : WindowAggregate) :
    (computeMetrics b).AvgLatencyMs =
      if b.Latencies.length > 0 then (sumInts b.Latencies : ℚ) / (b.Latencies.length : ℚ)
      else 0 := rfl

/-- The average of a sample list as `computeMetrics` computes it: 0 when the list is empty,
else the wrapped sum over the length. -/
theorem average_eq (xs : List Int) :
    (xs = [] → (if xs.length > 0 then (sumInts xs : ℚ) / (xs.length : ℚ) else 0) = 0) ∧
    (xs ≠ [] → (if xs.length > 0 then (sumInts xs : ℚ) / (xs.length : ℚ) else 0) =
      (wrapInt64 xs.sum : ℚ) / (xs.length : ℚ)) := by
  constructor
  · intro h
    subst h
    simp
  · intro h
    have hpos : xs.length > 0 := List.length_pos.mpr h
    rw [if_pos hpos, sumInts_eq]

/-- Without rounding, `computeMetricsIn` is `computeMetrics`. -/
theorem computeMetricsIn_id (b : WindowAggregate) : computeMetricsIn id b = computeMetrics b :=
  rfl

/-- The two readings of `computeMetrics` differ only in the three averages and the cost. -/
theorem computeMetricsFloat64_agrees (b : WindowAggregate) :
    (computeMetricsFloat64 b).TenantID = (computeMetrics b).TenantID ∧
    (computeMetricsFloat64 b).Route = (computeMetrics b).Route ∧
    (computeMetricsFloat64 b).Model = (computeMetrics b).Model ∧
    (computeMetricsFloat64 b).WindowStart = (computeMetrics b).WindowStart ∧
    (computeMetricsFloat64 b).WindowEnd = (computeMetrics b).WindowEnd ∧
    (computeMetricsFloat64 b).Requests = (computeMetrics b).Requests ∧
    (computeMetricsFloat64 b).Errors = (computeMetrics b).Errors ∧
    (computeMetricsFloat64 b).P95LatencyMs = (computeMetrics b).P95LatencyMs :=
  ⟨rfl, rfl, rfl, rfl, rfl, rfl, rfl, rfl⟩

theorem averageIn_nil (fl : ℚ → ℚ) : averageIn fl [] = 0 := rfl

theorem averageIn_of_ne_nil (fl : ℚ → ℚ) (xs : List Int) (h : xs ≠ []) :
    averageIn fl xs = fl (fl (wrapInt64 xs.sum : ℚ) / fl (xs.length : ℚ)) := by
  unfold averageIn
  rw [if_pos (List.length_pos.mpr h), sumInts_eq]

theorem roundToFloat64_natCast (n : Nat) (hn : n ≤ 2 ^ 53) : roundToFloat64 (n : ℚ) = n := by
  have h := roundToFloat64_intCast (n : Int) (by
    rw [abs_of_nonneg (Int.ofNat_nonneg n)]
    exact_mod_cast hn)
  simpa using h

theorem averageIn_isFloat64Average (xs : List Int) :
    IsFloat64Average xs (averageIn roundToFloat64 xs) := by
  refine ⟨fun h => by rw [h, averageIn_nil], averageIn_of_ne_nil _ xs, ?_⟩
  intro hne hsum hlen
  have hbounds := abs_le.mp hsum
  have hfits : wrapInt64 xs.sum = xs.sum :=
    wrapInt64_of_fits _ (by have := hbounds.1; norm_num at this ⊢; omega)
      (by have := hbounds.2; norm_num at this ⊢; omega)
  have havg : averageIn roundToFloat64 xs =
      roundToFloat64 ((xs.sum : ℚ) / (xs.length : ℚ)) := by
    rw [averageIn_of_ne_nil _ xs hne, hfits, roundToFloat64_intCast _ hsum,
      roundToFloat64_natCast _ hlen]
  refine ⟨havg, ?_, ?_⟩
  · rw [havg]
    exact roundToFloat64_error _
  · rintro ⟨k, hk⟩
    have hpos : 0 < xs.length := List.length_pos.mpr hne
    have hlenq : (xs.length : ℚ) ≠ 0 := by
      have : xs.length ≠ 0 := Nat.pos_iff_ne_zero.mp hpos
      exact_mod_cast this
    have hmean : (xs.sum : ℚ) / (xs.length : ℚ) = (k : ℚ) := by
      rw [hk]
      push_cast
      field_simp
    have hk53 : |k| ≤ 2 ^ 53 := by
      have h1 : |xs.sum| = (xs.length : Int) * |k| := by
        rw [hk, abs_mul, abs_of_nonneg (Int.ofNat_nonneg _)]
      have h2 : (1 : Int) ≤ (xs.length : Int) := by exact_mod_cast hpos
      have h3 : |k| ≤ (xs.length : Int) * |k| :=
        le_mul_of_one_le_left (abs_nonneg k) h2
      rw [← h1] at h3
      exact le_trans h3 hsum
    rw [havg, hmean, roundToFloat64_intCast k hk53]

theorem computeMetricsFloat64_avgLatency (b : WindowAggregate) :
    (computeMetricsFloat64 b).AvgLatencyMs = averageIn roundToFloat64 b.Latencies := rfl

theorem computeMetricsFloat64_avgPrompt (b : WindowAggregate) :
    (computeMetricsFloat64 b).AvgPromptTokens = averageIn roundToFloat64 b.PromptTokens := rfl

theorem computeMetricsFloat64_avgCompletion (b : WindowAggregate) :
    (computeMetricsFloat64 b).AvgCompletionTokens = averageIn roundToFloat64 b.CompTokens := rfl

/-- C16, as the code has it. `computeMetrics`, in `float64` arithmetic, sets `AvgLatencyMs`,
`AvgPromptTokens` and `AvgCompletionTokens` to 0 when the respective sample list is empty, and
otherwise to `float64(sum) / float64(len)`, a float division, with `sum` the result of the
64-bit summing loop.  When the exact sum of the list has magnitude at most `2 ^ 53` this is
the `float64` nearest to the exact arithmetic mean: within a relative error of `2 ^ (-53)`
of it, and equal to it when the length divides the sum.  `Requests`, `Errors` and the key
fields are copied from the bucket; the function only reads the bucket. -/
theorem computeMetrics_averages (b : WindowAggregate) :
    IsFloat64Average b.Latencies (computeMetricsFloat64 b).AvgLatencyMs ∧
    IsFloat64Average b.PromptTokens (computeMetricsFloat64 b).AvgPromptTokens ∧
    IsFloat64Average b.CompTokens (computeMetricsFloat64 b).AvgCompletionTokens ∧
    (computeMetricsFloat64 b).Requests = b.Requests ∧
    (computeMetricsFloat64 b).Errors = b.Errors ∧
    (computeMetricsFloat64 b).TenantID = b.TenantID ∧
    (computeMetricsFloat64 b).Route = b.Route ∧
    (computeMetricsFloat64 b).Model = b.Model ∧
    (computeMetricsFloat64 b).WindowStart = b.WindowStart ∧
    (computeMetricsFloat64 b).WindowEnd = b.WindowEnd :=
  ⟨averageIn_isFloat64Average b.Latencies, averageIn_isFloat64Average b.PromptTokens,
    averageIn_isFloat64Average b.CompTokens, rfl, rfl, rfl, rfl, rfl, rfl, rfl⟩

/-- Witness of `computeMetrics_averages`: the happy bucket has the exact mean latency
500. -/
theorem computeMetrics_averages_witness :
    happyBucket.Latencies ≠ [] ∧ |happyBucket.Latencies.sum| ≤ 2 ^ 53 ∧
    happyBucket.Latencies.length ≤ 2 ^ 53 ∧
    (happyBucket.Latencies.length : Int) ∣ happyBucket.Latencies.sum ∧
    (computeMetricsFloat64 happyBucket).AvgLatencyMs =
      (happyBucket.Latencies.sum : ℚ) / (happyBucket.Latencies.length : ℚ) := by
  have h1 : happyBucket.Latencies ≠ [] := by decide
  have h2 : |happyBucket.Latencies.sum| ≤ 2 ^ 53 := by decide
  have h3 : happyBucket.Latencies.length ≤ 2 ^ 53 := by
    show 1 ≤ 2 ^ 53
    norm_num
  have h4 : (happyBucket.Latencies.length : Int) ∣ happyBucket.Latencies.sum := by decide
  exact ⟨h1, h2, h3, h4, ((computeMetrics_averages happyBucket).1.2.2 h1 h2 h3).2.2 h4⟩

theorem roundToFloat64_four_thirds :
    roundToFloat64 (4 / 3) = 6004799503160661 / 4503599627370496 := by
  rw [roundToFloat64_of_log _ 0 (by norm_num [abs_of_pos]) (by norm_num [abs_of_pos]),
    roundHalfEven_of_lt_half _ 6004799503160661 (by norm_num) (by norm_num)]
  norm_num

/-- C16 fails as stated.  For the single latency `2 ^ 53 + 1` the average is
9007199254740992, not the mean 9007199254740993; for the latencies 1, 1, 2 it is the
`float64` 6004799503160661 / 2 ^ 52, printed 1.3333333333333333, not the mean 4 / 3. -/
theorem computeMetrics_averages_counterexample :
    (computeMetricsFloat64 hugeLatencyBucket).AvgLatencyMs = 9007199254740992 ∧
    (hugeLatencyBucket.Latencies.sum : ℚ) / (hugeLatencyBucket.Latencies.length : ℚ) =
      9007199254740993 ∧
    (computeMetricsFloat64 thirdsBucket).AvgLatencyMs =
      6004799503160661 / 4503599627370496 ∧
    (thirdsBucket.Latencies.sum : ℚ) / (thirdsBucket.Latencies.length : ℚ) = 4 / 3 ∧
    (computeMetricsFloat64 thirdsBucket).AvgLatencyMs ≠
      (thirdsBucket.Latencies.sum : ℚ) / (thirdsBucket.Latencies.length : ℚ) := by
  have hhuge : (computeMetricsFloat64 hugeLatencyBucket).AvgLatencyMs = 9007199254740992 := by
    rw [computeMetricsFloat64_avgLatency,
      averageIn_of_ne_nil _ hugeLatencyBucket.Latencies (by decide)]
    have hs : wrapInt64 hugeLatencyBucket.Latencies.sum = 9007199254740993 := by decide
    have hl : hugeLatencyBucket.Latencies.length = 1 := rfl
    rw [hs, hl, roundToFloat64_above_two_pow_53, roundToFloat64_natCast 1 (by norm_num)]
    have h := roundToFloat64_intCast 9007199254740992 (by norm_num)
    norm_num at h ⊢
    exact h
  have hthirds : (computeMetricsFloat64 thirdsBucket).AvgLatencyMs =
      6004799503160661 / 4503599627370496 := by
    rw [computeMetricsFloat64_avgLatency,
      averageIn_of_ne_nil _ thirdsBucket.Latencies (by decide)]
    have hs : wrapInt64 thirdsBucket.Latencies.sum = 4 := by decide
    have hl : thirdsBucket.Latencies.length = 3 := rfl
    rw [hs, hl, roundToFloat64_intCast 4 (by norm_num), roundToFloat64_natCast 3 (by norm_num)]
    have h := roundToFloat64_four_thirds
    norm_num at h ⊢
    exact h
  have hmean : (thirdsBucket.Latencies.sum : ℚ) / (thirdsBucket.Latencies.length : ℚ) =
      4 / 3 := by
    have hs : thirdsBucket.Latencies.sum = 4 := by decide
    have hl : thirdsBucket.Latencies.length = 3 := rfl
    rw [hs, hl]
    norm_num
  refine ⟨hhuge, ?_, hthirds, hmean, ?_⟩
  · have hs : hugeLatencyBucket.Latencies.sum = 9007199254740993 := by decide
    have hl : hugeLatencyBucket.Latencies.length = 1 := rfl
    rw [hs, hl]
    norm_num
  · rw [hthirds, hmean]
    norm_num

/-! ## A response after the window has been closed -/

theorem flush_removes_of_absent (p : MetricsProcessor) (now : Time) (sinks : Sinks)
    (order : List String) (k : String) (b : WindowAggregate)
    (hb : p.windowAggregates.get k = some b)
    (hclosed : (flushCompletedWindows p now sinks order).windows.get k = none) :
    flushRemoves sinks (Time.Add now (-WindowDuration)) b = true := by
  unfold flushCompletedWindows at hclosed
  rw [flushLoop_windows_get] at hclosed
  by_cases hk : k ∈ order
  · rw [if_pos hk, hb, Option.some_bind] at hclosed
    by_contra hr
    rw [if_neg hr] at hclosed
    cases hclosed
  · rw [if_neg hk, hb] at hclosed
    cases hclosed

theorem flush_inserted_mem (p : MetricsProcessor) (now : Time) (sinks : Sinks)
    (order : List String) (k : String) (b : WindowAggregate)
    (horder : p.windowAggregates.IsRange order) (hb : p.windowAggregates.get k = some b)
    (hrem : flushRemoves sinks (Time.Add now (-WindowDuration)) b = true) :
    computeMetrics b ∈ (flushCompletedWindows p now sinks order).inserted := by
  have hk : k ∈ order := (horder.2 k).mpr (by rw [hb]; rfl)
  unfold flushCompletedWindows
  rw [flushLoop_inserted _ _ _ _ horder.1, List.nil_append, List.mem_filterMap]
  refine ⟨k, hk, ?_⟩
  simp [flushInserts, hb, hrem]

/-- A response whose request is in the pair store, handled when no bucket is filed under the
request's key: a fresh bucket is filed there, holding this one pair. -/
theorem processResponse_refiles (p : MetricsProcessor) (windows : GoMap WindowAggregate)
    (req : LLMRequest) (resp : LLMResponse)
    (hreq : p.requestState.get resp.RequestID = some req)
    (hgone : windows.get (requestKey req) = none) :
    (processResponse { p with windowAggregates := windows } resp).windowAggregates =
      windows.set (requestKey req) ((newWindowAggregate req).update req resp) := by
  have hfound : ({ p with windowAggregates := windows } : MetricsProcessor).requestState.get
      resp.RequestID = some req := hreq
  rw [processResponse_of_found _ _ _ hfound]
  unfold bucketBefore
  simp only [hgone, Option.getD_none]

/-- C13, as the code has it. In a reachable state, let a bucket be filed under the key of a
request that is in the pair store, and let a flush close it: its record is stored and the key
is removed.  A response with the request's `request_id` handled afterwards files a fresh
bucket under the same key, with `Requests = 1`, the response's single sample and the same
window bounds; a later flush past the cutoff with accepting sinks stores a second record for
that window, with `requests = 1`. -/
theorem late_response_refolds (p : MetricsProcessor) (hp : Reachable p) (req : LLMRequest)
    (resp : LLMResponse) (closed : WindowAggregate) (now : Time) (sinks : Sinks)
    (order : List String)
    (hreq : p.requestState.get resp.RequestID = some req)
    (hfiled : p.windowAggregates.get (requestKey req) = some closed)
    (horder : p.windowAggregates.IsRange order)
    (hclosed : (flushCompletedWindows p now sinks order).windows.get (requestKey req) = none) :
    computeMetrics closed ∈ (flushCompletedWindows p now sinks order).inserted ∧
    ∃ b, (processResponse
        { p with windowAggregates := (flushCompletedWindows p now sinks order).windows }
        resp).windowAggregates.get (requestKey req) = some b ∧
      b.Requests = 1 ∧ b.Latencies = [resp.LatencyMs] ∧
      b.WindowStart = closed.WindowStart ∧ b.WindowEnd = closed.WindowEnd ∧
      ∀ (later : Time) (sinks₂ : Sinks) (order₂ : List String),
        (processResponse
          { p with windowAggregates := (flushCompletedWindows p now sinks order).windows }
          resp).windowAggregates.IsRange order₂ →
        b.WindowEnd < later - WindowDuration →
        sinks₂.ProduceJSON (metricsKey (computeMetrics b)) (computeMetrics b) = true →
        sinks₂.InsertMetrics (computeMetrics b) = true →
        computeMetrics b ∈ (flushCompletedWindows (processResponse
          { p with windowAggregates := (flushCompletedWindows p now sinks order).windows }
          resp) later sinks₂ order₂).inserted ∧
        (computeMetrics b).WindowStart = (computeMetrics closed).WindowStart ∧
        (computeMetrics b).Requests = 1 := by
  have hrem := flush_removes_of_absent p now sinks order _ closed hfiled hclosed
  have hwin := hp.bucketBefore_windowStart req
  have hbb : bucketBefore p req = closed := by
    unfold bucketBefore
    rw [hfiled, Option.getD_some]
  rw [hbb] at hwin
  have hget := processResponse_refiles p (flushCompletedWindows p now sinks order).windows req
    resp hreq hclosed
  refine ⟨flush_inserted_mem p now sinks order _ closed horder hfiled hrem,
    (newWindowAggregate req).update req resp, ?_, rfl, rfl, hwin.1.symm, hwin.2.symm, ?_⟩
  · rw [hget, GoMap.get_set_self]
  · intro later sinks₂ order₂ horder₂ hdue hproduce hinsert
    refine ⟨flush_inserted_mem _ later sinks₂ order₂ (requestKey req) _ horder₂ ?_ ?_,
      hwin.1.symm, rfl⟩
    · rw [hget, GoMap.get_set_self]
    · exact (flushRemoves_iff sinks₂ later _).mpr ⟨hdue, hproduce, hinsert⟩

theorem happyBucket_eq :
    (newWindowAggregate happyRequest).update happyRequest happyResponse = happyBucket := by
  decide

theorem happyState_request :
    happyState.requestState.get happyResponse.RequestID = some happyRequest := by
  rw [happyState_requestState]
  exact GoMap.get_set_self _ _ _

/-- The flush of the happy state one second after 2024-01-01T00:02:00Z, sinks accepting. -/
theorem happyState_flushed :
    (flushCompletedWindows happyState (Time.ofUnix 1704067321) sinksOk
        [requestKey happyRequest]).inserted = [happyMetrics] ∧
      (flushCompletedWindows happyState (Time.ofUnix 1704067321) sinksOk
        [requestKey happyRequest]).windows =
        happyState.windowAggregates.delete (requestKey happyRequest) := by
  obtain ⟨-, h2, h3⟩ := flushCompletedWindows_singleton_flush happyState
    (Time.ofUnix 1704067321) sinksOk (requestKey happyRequest) happyBucket happyState_get_self
    ((happyBucket_due_iff _).mpr (by decide)) rfl rfl
  rw [computeMetrics_happyBucket] at h2
  exact ⟨h2, h3⟩

theorem happyState_flushed_get (k : String) :
    (flushCompletedWindows happyState (Time.ofUnix 1704067321) sinksOk
      [requestKey happyRequest]).windows.get k = none := by
  rw [happyState_flushed.2]
  by_cases hk : k = requestKey happyRequest
  · rw [hk, GoMap.get_delete_self]
  · rw [GoMap.get_delete_of_ne _ hk, happyState_get, if_neg hk]

/-- Witness of `late_response_refolds`: the happy state, flushed one second after
2024-01-01T00:02:00Z, then the happy response once more. -/
theorem late_response_refolds_witness :
    Reachable happyState ∧
    happyState.requestState.get happyResponse.RequestID = some happyRequest ∧
    happyState.windowAggregates.get (requestKey happyRequest) = some happyBucket ∧
    happyState.windowAggregates.IsRange [requestKey happyRequest] ∧
    (flushCompletedWindows happyState (Time.ofUnix 1704067321) sinksOk
      [requestKey happyRequest]).windows.get (requestKey happyRequest) = none ∧
    computeMetrics happyBucket ∈ (flushCompletedWindows happyState (Time.ofUnix 1704067321)
      sinksOk [requestKey happyRequest]).inserted :=
  ⟨happyState_reachable, happyState_request, happyState_get_self, happyState_isRange,
    happyState_flushed_get _,
    (late_response_refolds happyState happyState_reachable happyRequest happyResponse
      happyBucket (Time.ofUnix 1704067321) sinksOk [requestKey happyRequest]
      happyState_request happyState_get_self happyState_isRange
      (happyState_flushed_get _)).1⟩

/-- C13 fails as stated: the happy state is flushed one second after 2024-01-01T00:02:00Z, which
stores the record and empties the window map; the happy response handled once more, the
request still being in the pair store, files the bucket again, so the window map is not
unchanged, and a flush one minute later stores the record a second time. -/
theorem late_response_counterexample :
    (flushCompletedWindows happyState (Time.ofUnix 1704067321) sinksOk
      [requestKey happyRequest]).inserted = [happyMetrics] ∧
    (flushCompletedWindows happyState (Time.ofUnix 1704067321) sinksOk
      [requestKey happyRequest]).windows.get (requestKey happyRequest) = none ∧
    (processResponse { happyState with windowAggregates :=
        (flushCompletedWindows happyState (Time.ofUnix 1704067321) sinksOk
          [requestKey happyRequest]).windows } happyResponse).windowAggregates.get
      (requestKey happyRequest) = some happyBucket ∧
    (processResponse { happyState with windowAggregates :=
        (flushCompletedWindows happyState (Time.ofUnix 1704067321) sinksOk
          [requestKey happyRequest]).windows } happyResponse).windowAggregates ≠
      (flushCompletedWindows happyState (Time.ofUnix 1704067321) sinksOk
        [requestKey happyRequest]).windows ∧
    (flushCompletedWindows (processResponse { happyState with windowAggregates :=
        (flushCompletedWindows happyState (Time.ofUnix 1704067321) sinksOk
          [requestKey happyRequest]).windows } happyResponse) (Time.ofUnix 1704067381) sinksOk
      [requestKey happyRequest]).inserted = [happyMetrics] := by
  have hget := processResponse_refiles happyState
    (flushCompletedWindows happyState (Time.ofUnix 1704067321) sinksOk
      [requestKey happyRequest]).windows happyRequest happyResponse happyState_request
    (happyState_flushed_get _)
  rw [happyBucket_eq] at hget
  have hsome : (processResponse { happyState with windowAggregates :=
      (flushCompletedWindows happyState (Time.ofUnix 1704067321) sinksOk
        [requestKey happyRequest]).windows } happyResponse).windowAggregates.get
      (requestKey happyRequest) = some happyBucket := by
    rw [hget, GoMap.get_set_self]
  refine ⟨happyState_flushed.1, happyState_flushed_get _, hsome, ?_, ?_⟩
  · intro h
    have h2 := happyState_flushed_get (requestKey happyRequest)
    rw [← h, hsome] at h2
    cases h2
  · obtain ⟨-, h2, -⟩ := flushCompletedWindows_singleton_flush _ (Time.ofUnix 1704067381)
      sinksOk (requestKey happyRequest) happyBucket hsome
      ((happyBucket_due_iff _).mpr (by decide)) rfl rfl
    rw [computeMetrics_happyBucket] at h2
    exact h2

/-! ## The order of publication -/

theorem flushCompletedWindows_produced (p : MetricsProcessor) (now : Time) (sinks : Sinks)
    (order : List String) (horder : order.Nodup) :
    (flushCompletedWindows p now sinks order).produced =
      order.filterMap (flushProduces sinks (Time.Add now (-WindowDuration))
        p.windowAggregates) := by
  unfold flushCompletedWindows
  rw [flushLoop_produced _ _ _ _ horder, List.nil_append]

theorem flushCompletedWindows_inserted (p : MetricsProcessor) (now : Time) (sinks : Sinks)
    (order : List String) (horder : order.Nodup) :
    (flushCompletedWindows p now sinks order).inserted =
      order.filterMap (flushInserts sinks (Time.Add now (-WindowDuration))
        p.windowAggregates) := by
  unfold flushCompletedWindows
  rw [flushLoop_inserted _ _ _ _ horder, List.nil_append]

theorem GoMap.IsRange.perm {V : Type} {m : GoMap V} {order₁ order₂ : List String}
    (h₁ : m.IsRange order₁) (h₂ : m.IsRange order₂) : order₁.Perm order₂ :=
  (List.perm_ext_iff_of_nodup h₁.1 h₂.1).mpr fun k => (h₁.2 k).trans (h₂.2 k).symm

/-- C17, as the code has it. Within one `flushCompletedWindows` tick the closable buckets are
published in the order in which the `range` loop visits the keys of the window map, which the
language leaves unspecified: there is no sort.  Two runs on the same window map, with the
same `now` and the same sink answers, publish and store the same records up to order, one
sequence being a permutation of the other, and leave the same window map. -/
theorem flush_visiting_order (p : MetricsProcessor) (now : Time) (sinks : Sinks)
    (order₁ order₂ : List String) (h₁ : p.windowAggregates.IsRange order₁)
    (h₂ : p.windowAggregates.IsRange order₂) :
    (flushCompletedWindows p now sinks order₁).produced =
      order₁.filterMap (flushProduces sinks (Time.Add now (-WindowDuration))
        p.windowAggregates) ∧
    ((flushCompletedWindows p now sinks order₁).produced).Perm
      (flushCompletedWindows p now sinks order₂).produced ∧
    ((flushCompletedWindows p now sinks order₁).inserted).Perm
      (flushCompletedWindows p now sinks order₂).inserted ∧
    (flushCompletedWindows p now sinks order₁).windows =
      (flushCompletedWindows p now sinks order₂).windows := by
  have hperm := h₁.perm h₂
  refine ⟨flushCompletedWindows_produced p now sinks order₁ h₁.1, ?_, ?_, ?_⟩
  · rw [flushCompletedWindows_produced p now sinks order₁ h₁.1,
      flushCompletedWindows_produced p now sinks order₂ h₂.1]
    exact hperm.filterMap _
  · rw [flushCompletedWindows_inserted p now sinks order₁ h₁.1,
      flushCompletedWindows_inserted p now sinks order₂ h₂.1]
    exact hperm.filterMap _
  · apply GoMap.ext_get
    intro k
    unfold flushCompletedWindows
    rw [flushLoop_windows_get, flushLoop_windows_get]
    by_cases hk : k ∈ order₁
    · rw [if_pos hk, if_pos (hperm.mem_iff.mp hk)]
    · rw [if_neg hk, if_neg (fun h => hk (hperm.mem_iff.mpr h))]

theorem GoMap.isRange_pair {V : Type} (k₁ k₂ : String) (v₁ v₂ : V) (hne : k₁ ≠ k₂) :
    ((GoMap.empty.set k₁ v₁).set k₂ v₂).IsRange [k₁, k₂] ∧
      ((GoMap.empty.set k₁ v₁).set k₂ v₂).IsRange [k₂, k₁] := by
  have hmem : ∀ j, (((GoMap.empty.set k₁ v₁).set k₂ v₂).get j).isSome = true ↔
      j = k₁ ∨ j = k₂ := by
    intro j
    by_cases h2 : j = k₂
    · subst h2; simp
    · rw [GoMap.get_set_of_ne _ _ h2]
      by_cases h1 : j = k₁
      · subst h1; simp
      · rw [GoMap.get_set_of_ne _ _ h1, GoMap.get_empty]
        simp [h1, h2]
  constructor
  · refine ⟨by simp [hne], fun j => ?_⟩
    rw [hmem]; simp
  · refine ⟨by simp [Ne.symm hne], fun j => ?_⟩
    rw [hmem]; simp [or_comm]

/-- A flush that visits two keys whose buckets are both past the cutoff and accepted by the
stream: the two records are published in the order of the visit. -/
theorem flushCompletedWindows_pair_produced (p : MetricsProcessor) (now : Time) (sinks : Sinks)
    (k₁ k₂ : String) (b₁ b₂ : WindowAggregate) (hne : k₁ ≠ k₂)
    (h₁ : p.windowAggregates.get k₁ = some b₁) (h₂ : p.windowAggregates.get k₂ = some b₂)
    (hd₁ : Time.Before b₁.WindowEnd (Time.Add now (-WindowDuration)) = true)
    (hd₂ : Time.Before b₂.WindowEnd (Time.Add now (-WindowDuration)) = true)
    (hp₁ : sinks.ProduceJSON (metricsKey (computeMetrics b₁)) (computeMetrics b₁) = true)
    (hp₂ : sinks.ProduceJSON (metricsKey (computeMetrics b₂)) (computeMetrics b₂) = true) :
    (flushCompletedWindows p now sinks [k₁, k₂]).produced =
      [(metricsKey (computeMetrics b₁), computeMetrics b₁),
        (metricsKey (computeMetrics b₂), computeMetrics b₂)] := by
  rw [flushCompletedWindows_produced p now sinks [k₁, k₂] (by simp [hne])]
  simp [flushProduces, h₁, h₂, hd₁, hd₂, hp₁, hp₂]

theorem requestKey_later_ne : requestKey happyRequest ≠ requestKey laterRequest := by
  intro h
  have hu := windowKey_unix_eq _ _ _ _ _ _ _ _ h
  revert hu
  decide

theorem laterBucket_eq :
    (newWindowAggregate laterRequest).update laterRequest laterResponse = laterBucket := by
  decide

theorem twoWindowState_windows :
    twoWindowState.windowAggregates =
      (GoMap.empty.set (requestKey happyRequest) happyBucket).set (requestKey laterRequest)
        laterBucket := by
  unfold twoWindowState
  rw [two_pairs_windows happyRequest laterRequest happyResponse laterResponse rfl rfl,
    GoMap.get_set_of_ne _ _ requestKey_later_ne.symm, GoMap.get_empty, Option.getD_none,
    happyBucket_eq, laterBucket_eq]

theorem twoWindowState_get :
    twoWindowState.windowAggregates.get (requestKey happyRequest) = some happyBucket ∧
      twoWindowState.windowAggregates.get (requestKey laterRequest) = some laterBucket := by
  rw [twoWindowState_windows]
  exact ⟨by rw [GoMap.get_set_of_ne _ _ requestKey_later_ne, GoMap.get_set_self],
    GoMap.get_set_self _ _ _⟩

theorem twoWindowState_isRange :
    twoWindowState.windowAggregates.IsRange [requestKey happyRequest, requestKey laterRequest] ∧
      twoWindowState.windowAggregates.IsRange
        [requestKey laterRequest, requestKey happyRequest] := by
  rw [twoWindowState_windows]
  exact GoMap.isRange_pair _ _ _ _ requestKey_later_ne

theorem laterBucket_due :
    Time.Before laterBucket.WindowEnd (Time.Add (Time.ofUnix 1704067381) (-WindowDuration)) =
      true := by
  decide

/-- Witness of `flush_visiting_order`: the two visiting orders of the state with two
windows. -/
theorem flush_visiting_order_witness :
    twoWindowState.windowAggregates.IsRange [requestKey happyRequest, requestKey laterRequest] ∧
    twoWindowState.windowAggregates.IsRange [requestKey laterRequest, requestKey happyRequest] ∧
    ((flushCompletedWindows twoWindowState (Time.ofUnix 1704067381) sinksOk
      [requestKey happyRequest, requestKey laterRequest]).produced).Perm
      (flushCompletedWindows twoWindowState (Time.ofUnix 1704067381) sinksOk
        [requestKey laterRequest, requestKey happyRequest]).produced :=
  ⟨twoWindowState_isRange.1, twoWindowState_isRange.2,
    (flush_visiting_order twoWindowState (Time.ofUnix 1704067381) sinksOk _ _
      twoWindowState_isRange.1 twoWindowState_isRange.2).2.1⟩

/-- C17 fails as stated: on the state with the windows starting 00:00:00 and 00:01:00, both
closable at 2024-01-01T00:03:01Z, the visiting order that takes the later window first is a
valid order of the `range` loop and publishes the later window first, not in ascending order
of `window_start`; the other valid order publishes a different sequence. -/
theorem flush_order_counterexample :
    twoWindowState.windowAggregates.IsRange [requestKey laterRequest, requestKey happyRequest] ∧
    twoWindowState.windowAggregates.IsRange [requestKey happyRequest, requestKey laterRequest] ∧
    (flushCompletedWindows twoWindowState (Time.ofUnix 1704067381) sinksOk
      [requestKey laterRequest, requestKey happyRequest]).produced.map
        (fun km => km.2.WindowStart) = [Time.ofUnix 1704067260, Time.ofUnix 1704067200] ∧
    (flushCompletedWindows twoWindowState (Time.ofUnix 1704067381) sinksOk
      [requestKey happyRequest, requestKey laterRequest]).produced.map
        (fun km => km.2.WindowStart) = [Time.ofUnix 1704067200, Time.ofUnix 1704067260] ∧
    (flushCompletedWindows twoWindowState (Time.ofUnix 1704067381) sinksOk
      [requestKey laterRequest, requestKey happyRequest]).produced ≠
      (flushCompletedWindows twoWindowState (Time.ofUnix 1704067381) sinksOk
        [requestKey happyRequest, requestKey laterRequest]).produced := by
  have hhappy : Time.Before happyBucket.WindowEnd
      (Time.Add (Time.ofUnix 1704067381) (-WindowDuration)) = true :=
    (happyBucket_due_iff _).mpr (by decide)
  have h12 := flushCompletedWindows_pair_produced twoWindowState (Time.ofUnix 1704067381)
    sinksOk _ _ happyBucket laterBucket requestKey_later_ne twoWindowState_get.1
    twoWindowState_get.2 hhappy laterBucket_due rfl rfl
  have h21 := flushCompletedWindows_pair_produced twoWindowState (Time.ofUnix 1704067381)
    sinksOk _ _ laterBucket happyBucket requestKey_later_ne.symm twoWindowState_get.2
    twoWindowState_get.1 laterBucket_due hhappy rfl rfl
  have hmap21 : (flushCompletedWindows twoWindowState (Time.ofUnix 1704067381) sinksOk
      [requestKey laterRequest, requestKey happyRequest]).produced.map
        (fun km => km.2.WindowStart) = [Time.ofUnix 1704067260, Time.ofUnix 1704067200] := by
    rw [h21]; rfl
  have hmap12 : (flushCompletedWindows twoWindowState (Time.ofUnix 1704067381) sinksOk
      [requestKey happyRequest, requestKey laterRequest]).produced.map
        (fun km => km.2.WindowStart) = [Time.ofUnix 1704067200, Time.ofUnix 1704067260] := by
    rw [h12]; rfl
  refine ⟨twoWindowState_isRange.2, twoWindowState_isRange.1, hmap21, hmap12, ?_⟩
  intro h
  rw [h, hmap12] at hmap21
  revert hmap21
  decide

/-! ## Window keys of fields that contain the separator -/

theorem windowKey_collision (w : Time) :
    windowKey "a|b" "c" "m" w = windowKey "a" "b|c" "m" w := by
  unfold windowKey
  have h : ("a|b" : String) ++ "|" ++ "c" ++ "|" ++ "m" ++ "|" =
      "a" ++ "|" ++ "b|c" ++ "|" ++ "m" ++ "|" := by decide
  rw [h]

theorem requestKey_pipe : requestKey pipeRequestA = requestKey pipeRequestB :=
  windowKey_collision (Time.Truncate happyRequest.Timestamp WindowDuration)

theorem formatInt_windowStart : formatInt 1704067200 = "1704067200" := by
  show formatNat 1704067200 = "1704067200"
  unfold formatNat
  rw [if_neg (by decide)]
  norm_num
  decide

/-- The key both requests are filed under. -/
theorem requestKey_pipe_eq :
    requestKey pipeRequestA = "a|b|c|m|1704067200" ∧
      requestKey pipeRequestB = "a|b|c|m|1704067200" := by
  have hu : Time.Unix (Time.Truncate happyRequest.Timestamp WindowDuration) = 1704067200 := by
    decide
  have hA : requestKey pipeRequestA =
      "a|b" ++ "|" ++ "c" ++ "|" ++ "m" ++ "|" ++
        formatInt (Time.Unix (Time.Truncate happyRequest.Timestamp WindowDuration)) := rfl
  have hk : requestKey pipeRequestA = "a|b|c|m|1704067200" := by
    rw [hA, hu, formatInt_windowStart]
    decide
  exact ⟨hk, by rw [← requestKey_pipe]; exact hk⟩

/-- C18 at two requests of different tenants and routes, `(a|b, c, m)` and `(a, b|c, m)`, in
the same window: both get the window key `a|b|c|m|1704067200`, so the second pair is folded
into the bucket of the first, which ends with `Requests = 2` and carries the tenant `a|b` and
the route `c`, not those of the second request. -/
theorem window_key_collision :
    (pipeRequestA.TenantID, pipeRequestA.Route, pipeRequestA.Model,
        Time.Truncate pipeRequestA.Timestamp WindowDuration) ≠
      (pipeRequestB.TenantID, pipeRequestB.Route, pipeRequestB.Model,
        Time.Truncate pipeRequestB.Timestamp WindowDuration) ∧
    requestKey pipeRequestA = requestKey pipeRequestB ∧
    requestKey pipeRequestB = "a|b|c|m|1704067200" ∧
    ∃ b, (processResponse (processRequest (processResponse
        (processRequest NewMetricsProcessor pipeRequestA) happyResponse) pipeRequestB)
        { happyResponse with RequestID := "r2" }).windowAggregates.get
          (requestKey pipeRequestB) = some b ∧
      b.Requests = 2 ∧ b.PromptTokens = [pipeRequestA.PromptTokens, pipeRequestB.PromptTokens] ∧
      b.TenantID = "a|b" ∧ b.Route = "c" ∧
      b.TenantID ≠ pipeRequestB.TenantID ∧ b.Route ≠ pipeRequestB.Route := by
  refine ⟨by decide, requestKey_pipe, requestKey_pipe_eq.2, ?_⟩
  refine ⟨(((newWindowAggregate pipeRequestA).update pipeRequestA happyResponse).update
    pipeRequestB { happyResponse with RequestID := "r2" }), ?_, rfl, rfl, rfl, rfl,
    by decide, by decide⟩
  rw [two_pairs_windows pipeRequestA pipeRequestB happyResponse
    { happyResponse with RequestID := "r2" } rfl rfl, ← requestKey_pipe,
    GoMap.get_set_self, GoMap.get_set_self, Option.getD_some]

end StreamLens
